import Mathlib

/-!
Verification of the `sistema-comissoes` commission-report scripts.

The Python sources are shallowly embedded: spreadsheet tables become lists of
association-list rows of strings, Python floats are modelled as exact
rationals (`ℚ`), fallible code returns `Except`/`Option`, and the relational
date lookup is an explicit function parameter.
-/

/-! ## Basic Python string primitives -/

/-- Characters treated as whitespace by Python's `str.strip()` (the ASCII
whitespace fragment, which covers every input in this development). -/
def isPyWs (c : Char) : Bool :=
  c = ' ' || c = '\t' || c = '\n' || c = '\r' || c = '\x0b' || c = '\x0c'

/-- List-level model of Python `str.strip()`. -/
def pyStripL (cs : List Char) : List Char :=
  ((cs.dropWhile isPyWs).reverse.dropWhile isPyWs).reverse

/-- Model of Python `str.strip()`. -/
def pyStrip (s : String) : String :=
  String.mk (pyStripL s.data)

/-- Model of Python `str.lower()` on one character, covering ASCII letters and
the Latin-1 accented vowels/cedilla the scripts normalize. -/
def pyLowerChar (c : Char) : Char :=
  if 'A' ≤ c ∧ c ≤ 'Z' then Char.ofNat (c.toNat + 32)
  else if c = 'Ã' then 'ã'
  else if c = 'Á' then 'á'
  else if c = 'À' then 'à'
  else if c = 'Â' then 'â'
  else if c = 'É' then 'é'
  else if c = 'Ê' then 'ê'
  else if c = 'Í' then 'í'
  else if c = 'Ó' then 'ó'
  else if c = 'Ô' then 'ô'
  else if c = 'Ú' then 'ú'
  else if c = 'Ç' then 'ç'
  else c

/-- Model of Python `str.lower()`. -/
def pyLower (s : String) : String :=
  String.mk (s.data.map pyLowerChar)

/-- Accent folding performed by `_norm_text` / `_norm_level`: the chained
single-character `str.replace` calls of the scripts. -/
def accentFold (c : Char) : Char :=
  if c = 'ã' then 'a'
  else if c = 'á' then 'a'
  else if c = 'à' then 'a'
  else if c = 'â' then 'a'
  else if c = 'é' then 'e'
  else if c = 'ê' then 'e'
  else if c = 'í' then 'i'
  else if c = 'ó' then 'o'
  else if c = 'ô' then 'o'
  else if c = 'ú' then 'u'
  else if c = 'ç' then 'c'
  else c

/-- Embedding of `_norm_text` (and the identical `_norm_level`):
`str(s or "").strip().lower()` followed by the accent replacements. -/
def normText (s : String) : String :=
  String.mk ((pyStripL s.data).map (fun c => accentFold (pyLowerChar c)))

/-- Model of Python's non-overlapping, left-to-right
`str.replace("R$", "")` used by `parse_ptbr_money`. -/
def removeRS : List Char → List Char
  | [] => []
  | 'R' :: '$' :: rest => removeRS rest
  | c :: rest => c :: removeRS rest

/-! ## Numeric literal parsing (Python `float` / `Decimal`)

`pyParseNum` models the common numeric-literal fragment accepted by CPython's
`float(s)` and `Decimal(s)`: optional surrounding whitespace, an optional
sign, a decimal mantissa with at most one point, and an optional exponent.
Special spellings (`inf`, `nan`, underscore digit separators) lie outside the
modelled fragment; no input considered in this development produces them.
Floats are modelled as exact rationals. -/

/-- Natural-number value of a digit list read in base 10. -/
def natOfDigits (cs : List Char) : ℕ :=
  cs.foldl (fun a c => a * 10 + (c.toNat - 48)) 0

/-- Exact representation of a parsed numeric literal: sign, integer part,
fractional digits with their count, and decimal exponent. -/
structure NumRep where
  neg : Bool
  intPart : ℕ
  fracPart : ℕ
  fracLen : ℕ
  exp : ℤ
deriving DecidableEq

/-- Rational value denoted by a parsed numeric-literal representation. -/
def repVal (r : NumRep) : ℚ :=
  (if r.neg then (-1 : ℚ) else 1) *
    ((r.intPart : ℚ) + (r.fracPart : ℚ) / (10 : ℚ) ^ r.fracLen) * (10 : ℚ) ^ r.exp

/-- Parses a decimal exponent part (after `e`/`E`). -/
def parseExpPart (cs : List Char) : Option ℤ :=
  let (sgn, cs₁) :=
    match cs with
    | '+' :: rest => ((1 : ℤ), rest)
    | '-' :: rest => ((-1 : ℤ), rest)
    | rest => ((1 : ℤ), rest)
  let (ds, rest) := cs₁.span Char.isDigit
  if ds = [] ∨ rest ≠ [] then none
  else some (sgn * (natOfDigits ds : ℤ))

/-- Parses an unsigned mantissa with optional exponent into a `NumRep`
(with positive sign). -/
def parseUnsigned (cs : List Char) : Option NumRep :=
  let (d₁, r₁) := cs.span Char.isDigit
  match r₁ with
  | [] => if d₁ = [] then none else some ⟨false, natOfDigits d₁, 0, 0, 0⟩
  | '.' :: r₂ =>
    let (d₂, r₃) := r₂.span Char.isDigit
    if d₁ = [] ∧ d₂ = [] then none
    else
      match r₃ with
      | [] => some ⟨false, natOfDigits d₁, natOfDigits d₂, d₂.length, 0⟩
      | e :: r₄ =>
        if e = 'e' ∨ e = 'E' then
          (parseExpPart r₄).map (fun ex => ⟨false, natOfDigits d₁, natOfDigits d₂, d₂.length, ex⟩)
        else none
  | e :: r₂ =>
    if e = 'e' ∨ e = 'E' then
      if d₁ = [] then none
      else (parseExpPart r₂).map (fun ex => ⟨false, natOfDigits d₁, 0, 0, ex⟩)
    else none

/-- Parses a full numeric literal (optional surrounding whitespace, optional
sign, mantissa, optional exponent) into its exact representation. -/
def pyParseRep (s : String) : Option NumRep :=
  let cs := pyStripL s.data
  match cs with
  | '+' :: rest => parseUnsigned rest
  | '-' :: rest => (parseUnsigned rest).map (fun r => { r with neg := true })
  | rest => parseUnsigned rest

/-- Model of CPython `float(s)` / `Decimal(s)` on the numeric-literal
fragment described above, as an exact rational. -/
def pyParseNum (s : String) : Option ℚ :=
  (pyParseRep s).map repVal

/-! ## The two pt-BR money parsers -/

/-- A Python value reaching the money parsers: `None`, an `int`/`float`
(modelled as an exact rational), or a string. -/
inductive PyVal where
  | none
  | num (q : ℚ)
  | str (s : String)
deriving DecidableEq

/-- Comma-decimal normalization shared by both parsers: if a comma is
present, remove dots (thousands separators) and turn the comma into the
decimal point. -/
def brCommaSwap (cs : List Char) : List Char :=
  if cs.contains ',' then
    (cs.filter (fun c => c ≠ '.')).map (fun c => if c = ',' then '.' else c)
  else cs

/-- Character class kept by the regex `[^\d,\.\-+]` removal in
`parse_ptbr_number` (ASCII digits, comma, dot, minus, plus). -/
def numKeep (c : Char) : Bool :=
  c.isDigit || c = ',' || c = '.' || c = '-' || c = '+'

/-- String cleaned and normalized by `parse_ptbr_number` before the
`float(Decimal(_))` conversion (input is the already-stripped string). -/
def numberCleaned (s : String) : String :=
  String.mk (brCommaSwap (s.data.filter numKeep))

/-- String cleaned and normalized by the scripts' `parse_ptbr_money` before
the `float(_)` conversion: remove `"R$"`, remove spaces, comma-normalize
(input is the already-stripped string). -/
def moneyCleaned (s : String) : String :=
  String.mk (brCommaSwap ((removeRS s.data).filter (fun c => c ≠ ' ')))

/-- Embedding of `parse_ptbr_number` from `src/audaz_comissoes/number.py`. -/
def parse_ptbr_number : PyVal → ℚ
  | .none => 0
  | .num q => q
  | .str x =>
    let s := pyStrip x
    if s = "" then 0
    else (pyParseNum (numberCleaned s)).getD 0

/-- Embedding of `parse_ptbr_money` from the two scripts (the definitions in
both script files are textually identical). -/
def parse_ptbr_money : PyVal → ℚ
  | .none => 0
  | .num q => q
  | .str x =>
    let s := pyStrip x
    if s = "" then 0
    else (pyParseNum (moneyCleaned s)).getD 0

/-! ## Exception-explicit variants (for the totality claim)

The `E` variants keep the raising conversion explicit and model the
`try`/`except` clauses of the sources, so that "never raises" is a statement
rather than a typing artifact. -/

/-- Python exception kinds relevant to the parsers. -/
inductive PyExc where
  | valueError
  | invalidOperation
deriving DecidableEq

/-- Model of `float(s)` as a raising operation. -/
def pyFloatE (s : String) : Except PyExc ℚ :=
  match pyParseNum s with
  | some q => .ok q
  | Option.none => .error .valueError

/-- Model of `float(Decimal(s))` as a raising operation: a malformed literal
makes `Decimal` raise `InvalidOperation`. -/
def pyDecimalFloatE (s : String) : Except PyExc ℚ :=
  match pyParseNum s with
  | some q => .ok q
  | Option.none => .error .invalidOperation

/-- Exception-explicit embedding of `parse_ptbr_number`: the `try` block
runs `float(Decimal(s))` and the `except (InvalidOperation, ValueError)`
clause returns `0.0`; any other exception would propagate. -/
def parsePtbrNumberE : PyVal → Except PyExc ℚ
  | .none => .ok 0
  | .num q => .ok q
  | .str x =>
    let s := pyStrip x
    if s = "" then .ok 0
    else
      match pyDecimalFloatE (numberCleaned s) with
      | .ok q => .ok q
      | .error e =>
        if e = PyExc.invalidOperation ∨ e = PyExc.valueError then .ok 0
        else .error e

/-- Exception-explicit embedding of the scripts' `parse_ptbr_money`: its
`except Exception` clause catches every exception and returns `0.0`. -/
def parsePtbrMoneyE : PyVal → Except PyExc ℚ
  | .none => .ok 0
  | .num q => .ok q
  | .str x =>
    let s := pyStrip x
    if s = "" then .ok 0
    else
      match pyFloatE (moneyCleaned s) with
      | .ok q => .ok q
      | .error _ => .ok 0

example : parse_ptbr_money (.str "R$ 4.374,34") = 437434 / 100 := by
  have h1 : moneyCleaned (pyStrip "R$ 4.374,34") = "4374.34" := by decide
  have h2 : pyParseRep "4374.34" = some ⟨false, 4374, 34, 2, 0⟩ := by decide
  have h3 : ¬ pyStrip "R$ 4.374,34" = "" := by decide
  simp [parse_ptbr_money, pyParseNum, h1, h2, h3, repVal]
  norm_num

example : parse_ptbr_number (.str "abc123") = 123 := by
  have h1 : numberCleaned (pyStrip "abc123") = "123" := by decide
  have h2 : pyParseRep "123" = some ⟨false, 123, 0, 0, 0⟩ := by decide
  have h3 : ¬ pyStrip "abc123" = "" := by decide
  simp [parse_ptbr_number, pyParseNum, h1, h2, h3, repVal]

example : parse_ptbr_money (.str "abc123") = 0 := by
  have h1 : moneyCleaned (pyStrip "abc123") = "abc123" := by decide
  have h2 : pyParseRep "abc123" = Option.none := by decide
  have h3 : ¬ pyStrip "abc123" = "" := by decide
  simp [parse_ptbr_money, pyParseNum, h1, h2, h3]

example : parse_ptbr_money (.str "") = 0 := by
  have h3 : pyStrip "" = "" := by decide
  simp [parse_ptbr_money, h3]

example : parse_ptbr_number (.num 1500) = 1500 := by simp [parse_ptbr_number]

/-! ## DataFrame model

A spreadsheet table is a list of rows; a row is an association list from
column names to cell strings (all cells arrive from the Sheets reader as
strings). `rget` models `row.get(col)` followed by the sources' ubiquitous
`str(_ or "")` coercion: a missing column reads as the empty string. -/

/-- A row of a table: column-name/value pairs. -/
abbrev Row := List (String × String)

/-- A table: its column names and its rows. -/
structure DF where
  cols : List String
  rows : List Row
deriving DecidableEq

/-- Cell access `str(row.get(c) or "")`: the first binding of column `c`,
defaulting to the empty string. -/
def rget (r : Row) (c : String) : String :=
  match r.find? (fun p => p.1 == c) with
  | some p => p.2
  | Option.none => ""

/-- Column assignment `df[c] = v`-style update on one row: any previous
binding of `c` is replaced. -/
def rowSet (r : Row) (c v : String) : Row :=
  r.filter (fun p => p.1 != c) ++ [(c, v)]

/-- Errors raised (as `RuntimeError`s or uncaught conversion errors) by the
embedded pipeline functions. -/
inductive Err where
  | niveisColMissing
  | nivelNotFound
  | invalidPct
  | floatConvErr
  | metaColMissing
  | apCodigoColMissing
  | apVendedorColMissing
  | noGpCol
  | noPeople
deriving DecidableEq

/-! ## Level rate resolver (`get_percentual_sales_exec`) -/

/-- The numeric text extracted from a matched level row's `Sales Executive`
cell: `pct_str.replace("%", "").strip().replace(".", "").replace(",", ".")`. -/
def pctNumStr (row : Row) : String :=
  String.mk (((pyStripL ((pyStrip (rget row "Sales Executive")).data.filter
    (fun c => c ≠ '%'))).filter (fun c => c ≠ '.')).map (fun c => if c = ',' then '.' else c))

/-- Embedding of `get_percentual_sales_exec` from
`test_sales_exec_comp_by_date_creation_and_date_comission.py`: requires the
`Niveis` column, finds the first row whose normalized level equals the
normalized target, requires the `Sales Executive` cell to end in `%`, and
converts the remaining pt-BR number divided by 100.  The final `float`
conversion raises an uncaught `ValueError` when the cell's numeric content
does not parse ( `floatConvErr`). -/
def get_percentual_sales_exec (df : DF) (nivel : String) : Except Err ℚ :=
  if "Niveis" ∉ df.cols then .error .niveisColMissing
  else
    let nk := normText nivel
    match df.rows.find? (fun r => normText (rget r "Niveis") == nk) with
    | Option.none => .error .nivelNotFound
    | some row =>
      let pct_str := pyStrip (rget row "Sales Executive")
      if pct_str.data.getLast? ≠ some '%' then .error .invalidPct
      else
        match pyParseNum (pctNumStr row) with
        | some q => .ok (q / 100)
        | Option.none => .error .floatConvErr

instance {ε α : Type} [DecidableEq ε] [DecidableEq α] : DecidableEq (Except ε α) := fun a b =>
  match a, b with
  | .error e, .error f =>
    if h : e = f then .isTrue (by simp [h]) else .isFalse (by simp [h])
  | .error _, .ok _ => .isFalse (by simp)
  | .ok _, .error _ => .isFalse (by simp)
  | .ok x, .ok y =>
    if h : x = y then .isTrue (by simp [h]) else .isFalse (by simp [h])

example : normText "Guardião" = "guardiao" := by decide
example : normText "Guardiao" = normText "guardião" := by decide
example :
    get_percentual_sales_exec
      ⟨["Niveis", "Sales Executive"], [[("Niveis", "Guardiao"), ("Sales Executive", "50%")]]⟩
      "guardião" = .ok (1 / 2) := by
  have h : get_percentual_sales_exec
      ⟨["Niveis", "Sales Executive"], [[("Niveis", "Guardiao"), ("Sales Executive", "50%")]]⟩
      "guardião" = .ok (repVal ⟨false, 50, 0, 0, 0⟩ / 100) := rfl
  rw [h]
  norm_num [repVal]
example :
    get_percentual_sales_exec
      ⟨["Niveis", "Sales Executive"], [[("Niveis", "Guardiao"), ("Sales Executive", "%")]]⟩
      "Guardiao" = .error .floatConvErr := by decide

/-! ## Roster extractor (`get_sales_exec_people`) -/

/-- A roster entry built by `get_sales_exec_people`. -/
structure Person where
  nome : String
  email : String
  nivel : String
deriving DecidableEq

/-- The required columns of the `Meta Colaborador` sheet. -/
def metaRequired : List String := ["Colaborador", "Email", "Função", "Nível"]

/-- Builds a candidate roster entry from a row, dropping rows whose trimmed
name or trimmed level is empty (the `if not nome or not nivel: continue`). -/
def mkPerson? (r : Row) : Option Person :=
  let nome := pyStrip (rget r "Colaborador")
  let email := pyStrip (rget r "Email")
  let nivel := pyStrip (rget r "Nível")
  if nome = "" ∨ nivel = "" then Option.none else some ⟨nome, email, nivel⟩

/-- Deduplication key: `(p["email"] or p["nome"]).strip().lower()`. -/
def personKey (p : Person) : String :=
  pyLower (pyStrip (if p.email = "" then p.nome else p.email))

/-- The `seen`-set deduplication loop of `get_sales_exec_people`. -/
def dedupSeen (seen : List String) : List Person → List Person
  | [] => []
  | p :: ps =>
    if seen.contains (personKey p) then dedupSeen seen ps
    else p :: dedupSeen (personKey p :: seen) ps

/-- Embedding of `get_sales_exec_people`: column checks, filter on the
normalized `Função` column, candidate construction, and first-occurrence
deduplication. -/
def get_sales_exec_people (df : DF) : Except Err (List Person) :=
  if metaRequired.all (fun c => df.cols.contains c) = false then .error .metaColMissing
  else
    let rows := df.rows.filter (fun r => normText (rget r "Função") == normText "Sales Executive")
    .ok (dedupSeen [] (rows.filterMap mkPerson?))

/-- Keep-first deduplication as the specification phrases it: keep each
element and drop every later element with the same key. -/
def specDedupFirst : List Person → List Person
  | [] => []
  | p :: ps => p :: specDedupFirst (ps.filter (fun q => personKey q != personKey p))
termination_by l => l.length
decreasing_by
  simp only [List.length_cons]
  exact Nat.lt_succ_of_le (List.length_filter_le _ _)

lemma dedupSeen_eq_specDedupFirst (seen : List String) (l : List Person) :
    dedupSeen seen l =
      specDedupFirst (l.filter (fun p => ¬ seen.contains (personKey p))) := by
  induction l generalizing seen with
  | nil => simp [dedupSeen, specDedupFirst]
  | cons p ps ih =>
    by_cases h : seen.contains (personKey p)
    · rw [dedupSeen, if_pos h]
      rw [ih seen]
      congr 1
      rw [List.filter_cons]
      have hm : personKey p ∈ seen := List.mem_of_elem_eq_true h
      simp [hm]
    · rw [dedupSeen, if_neg h]
      have hsplit : (p :: ps).filter (fun q => ¬ seen.contains (personKey q)) =
          p :: ps.filter (fun q => ¬ seen.contains (personKey q)) := by
        rw [List.filter_cons]
        have hm : personKey p ∉ seen := fun hm => h (List.elem_eq_true_of_mem hm)
        simp [hm]
      rw [hsplit, specDedupFirst]
      congr 1
      rw [ih (personKey p :: seen)]
      congr 1
      rw [List.filter_filter]
      apply List.filter_congr
      intro q _
      simp [List.contains_cons]
      tauto

lemma specDedupFirst_subset {q : Person} :
    ∀ {l : List Person}, q ∈ specDedupFirst l → q ∈ l := by
  intro l
  induction l using specDedupFirst.induct with
  | case1 => simp [specDedupFirst]
  | case2 p ps ih =>
    rw [specDedupFirst]
    intro hq
    rcases List.mem_cons.mp hq with h | h
    · exact h ▸ List.mem_cons_self _ _
    · exact List.mem_cons_of_mem _ (List.mem_filter.mp (ih h)).1

lemma specDedupFirst_keys_nodup (l : List Person) :
    ((specDedupFirst l).map personKey).Nodup := by
  induction l using specDedupFirst.induct with
  | case1 => simp [specDedupFirst]
  | case2 p ps ih =>
    rw [specDedupFirst]
    simp only [List.map_cons, List.nodup_cons]
    refine ⟨fun hmem => ?_, ih⟩
    obtain ⟨q, hq, hkey⟩ := List.mem_map.mp hmem
    have hsub : q ∈ ps.filter (fun q => personKey q != personKey p) :=
      specDedupFirst_subset hq
    have := (List.mem_filter.mp hsub).2
    simp [bne_iff_ne] at this
    exact this hkey

/-! ## Dates and period buckets -/

/-- A calendar date-time as stored in `M0020_SHIPMENT_HOUSE` (the time of
day is irrelevant to the scripts, which only use year, month and the
`%Y-%m-%d` rendering). -/
structure Date where
  y : ℕ
  m : ℕ
  d : ℕ
deriving DecidableEq

/-- Decimal digit characters of a natural number (fuel-indexed structural
recursion; `fuel ≥ n + 1` always suffices). -/
def natDigitsF : ℕ → ℕ → List Char
  | 0, _ => []
  | fuel + 1, n =>
    if n < 10 then [Nat.digitChar n]
    else natDigitsF fuel (n / 10) ++ [Nat.digitChar (n % 10)]

/-- Decimal rendering of a natural number. -/
def natStr (n : ℕ) : String :=
  String.mk (natDigitsF (n + 1) n)

/-- Zero-padding as in Python's `f"{n:04d}"` (for non-negative values). -/
def padZ (w : ℕ) (s : String) : String :=
  String.mk (List.replicate (w - s.data.length) '0' ++ s.data)

/-- Embedding of `_to_yyyymm`: the `f"{d.year:04d}-{d.month:02d}"` bucket. -/
def toYYYYMM (d : Date) : String :=
  padZ 4 (natStr d.y) ++ "-" ++ padZ 2 (natStr d.m)

example : toYYYYMM ⟨2025, 8, 15⟩ = "2025-08" := by decide

/-! ## Salesperson matching (`Series.str.contains(nome, case=False)`)

`pandas.Series.str.contains` interprets its pattern as a regular expression
(`regex=True` is the default), with `case=False` adding `re.IGNORECASE`.
The embedding models the fragment of `re.search` built from literal
characters and the wildcard `.`; the characters that `re` treats specially
are collected in `regexMetaChars`, and the theorems that speak about plain
substring containment restrict the pattern to be free of them. -/

/-- A token of the modelled regular-expression fragment. -/
inductive PatTok where
  | dot
  | lit (c : Char)
deriving DecidableEq

/-- Tokenization of a pattern string (metacharacters other than `.` are not
interpreted by this model). -/
def patToks (pat : String) : List PatTok :=
  pat.data.map (fun c => if c = '.' then PatTok.dot else PatTok.lit c)

/-- Case-insensitive match of one token against one subject character. -/
def tokMatch : PatTok → Char → Bool
  | .dot, _ => true
  | .lit a, b => pyLowerChar a == pyLowerChar b

/-- Anchored match of a token list against a prefix of the subject. -/
def toksMatchPre : List PatTok → List Char → Bool
  | [], _ => true
  | _ :: _, [] => false
  | t :: ts, c :: cs => tokMatch t c && toksMatchPre ts cs

/-- Model of `re.search` with `re.IGNORECASE` for the literal-and-dot
fragment: the pattern may match starting at any position. -/
def pyContainsCI (pat s : String) : Bool :=
  (s.data.tails).any (toksMatchPre (patToks pat))

/-- Characters the `re` module treats as metacharacters. -/
def regexMetaChars : List Char :=
  ['.', '^', '$', '*', '+', '?', '[', ']', '(', ')', '|', '\\', Char.ofNat 123, Char.ofNat 125]

/-- Case-insensitive anchored prefix comparison of plain strings. -/
def prefCaseB : List Char → List Char → Bool
  | [], _ => true
  | _ :: _, [] => false
  | a :: as_, b :: bs => (pyLowerChar a == pyLowerChar b) && prefCaseB as_ bs

/-- Case-insensitive substring containment — what the specification means by
"contains the salesperson name as a case-insensitive substring". -/
def substrCI (pat s : String) : Bool :=
  (s.data.tails).any (prefCaseB pat.data)

lemma toksMatchPre_eq_prefCaseB (p : List Char) (hp : '.' ∉ p) (t : List Char) :
    toksMatchPre (p.map (fun c => if c = '.' then PatTok.dot else PatTok.lit c)) t
      = prefCaseB p t := by
  induction p generalizing t with
  | nil => simp [toksMatchPre, prefCaseB]
  | cons a as_ ih =>
    have ha : a ≠ '.' := fun h => hp (h ▸ List.mem_cons_self _ _)
    have has : '.' ∉ as_ := fun h => hp (List.mem_cons_of_mem _ h)
    cases t with
    | nil => simp [toksMatchPre, prefCaseB, ha]
    | cons b bs =>
      simp only [List.map_cons, if_neg ha, toksMatchPre, prefCaseB, tokMatch]
      rw [ih has]

/-- For a pattern with no regex metacharacters, the modelled `re.search`
agrees with plain case-insensitive substring containment. -/
lemma pyContainsCI_eq_substrCI (pat s : String)
    (h : ∀ c ∈ pat.data, c ∉ regexMetaChars) :
    pyContainsCI pat s = substrCI pat s := by
  have hdot : '.' ∉ pat.data := fun hm => (h _ hm) (by simp [regexMetaChars])
  unfold pyContainsCI substrCI patToks
  induction s.data.tails with
  | nil => rfl
  | cons t ts ih =>
    simp only [List.any_cons, ih]
    rw [toksMatchPre_eq_prefCaseB _ hdot]

/-! ## Transaction filter and per-person aggregation -/

/-- Embedding of `filter_apurado_by_vendedor`: column checks, then
`df["Vendedor"].str.contains(nome, case=False, na=False)`. -/
def filter_apurado_by_vendedor (df : DF) (nome : String) : Except Err DF :=
  if "Código" ∉ df.cols then .error .apCodigoColMissing
  else if "Vendedor" ∉ df.cols then .error .apVendedorColMissing
  else .ok ⟨df.cols, df.rows.filter (fun r => pyContainsCI nome (rget r "Vendedor"))⟩

/-- Round-half-to-even on exact rationals, the behaviour of Python's
`round` (no claim in this development touches a float-representation
midpoint, so the exact-rational reading is faithful). -/
def rhe (x : ℚ) : ℤ :=
  let f := ⌊x⌋
  let r := x - (f : ℚ)
  if r < 1 / 2 then f else if 1 / 2 < r then f + 1 else if f % 2 = 0 then f else f + 1

/-- Python's `round(x, 2)`. -/
def round2 (x : ℚ) : ℚ :=
  ((rhe (x * 100) : ℚ)) / 100

/-- The external per-code date lookup
(`get_dates_by_shipment_number`): creation and commission dates. -/
abbrev LookupT := String → Option Date × Option Date

/-- Gross value of a row: `parse_ptbr_money(r.get("Profit Liquido"))`. -/
def gpOf (r : Row) : ℚ :=
  parse_ptbr_money (.str (rget r "Profit Liquido"))

/-- The row loop of `run_for_person` for one `competencia`: returns the
included rows together with the accumulated `gp_total` and `com_total`.
When `debug` is non-empty, the loop also requires `codigo == debug_code`
and stops after the first included row (the `break`). -/
def procRows (lookup : LookupT) (debug : String) (pct : ℚ) (comp pay : String) :
    List Row → List Row × ℚ × ℚ
  | [] => ([], 0, 0)
  | r :: rs =>
    let codigo := pyStrip (rget r "Código")
    if codigo = "" then procRows lookup debug pct comp pay rs
    else if debug ≠ "" ∧ codigo ≠ debug then procRows lookup debug pct comp pay rs
    else
      match lookup codigo with
      | (some dc, some dcom) =>
        if toYYYYMM dc = comp then
          if toYYYYMM dcom = pay then
            let gp := gpOf r
            let vc := round2 (gp * pct)
            if debug ≠ "" then ([r], gp, vc)
            else
              let rest := procRows lookup debug pct comp pay rs
              (r :: rest.1, gp + rest.2.1, vc + rest.2.2)
          else procRows lookup debug pct comp pay rs
        else procRows lookup debug pct comp pay rs
      | _ => procRows lookup debug pct comp pay rs

/-- The acceptance test applied to each row of the vendedor-filtered table
inside the row loop (with no debug code set): non-blank código, both dates
resolved, and both month buckets equal to the requested periods. -/
def rowPasses (lookup : LookupT) (comp pay : String) (r : Row) : Bool :=
  let codigo := pyStrip (rget r "Código")
  if codigo = "" then false
  else
    match lookup codigo with
    | (some dc, some dcom) =>
      if toYYYYMM dc = comp then (if toYYYYMM dcom = pay then true else false) else false
    | _ => false

lemma procRows_nodebug (lookup : LookupT) (pct : ℚ) (comp pay : String) (rows : List Row) :
    procRows lookup "" pct comp pay rows =
      (rows.filter (rowPasses lookup comp pay),
       ((rows.filter (rowPasses lookup comp pay)).map gpOf).sum,
       ((rows.filter (rowPasses lookup comp pay)).map (fun r => round2 (gpOf r * pct))).sum) := by
  induction rows with
  | nil => simp [procRows]
  | cons r rs ih =>
    rw [procRows, List.filter_cons]
    by_cases hc : pyStrip (rget r "Código") = ""
    · rw [if_pos hc, ih]
      have : rowPasses lookup comp pay r = false := by rw [rowPasses]; simp [hc]
      simp [this]
    · rw [if_neg hc]
      have hdbg : ¬ (("" : String) ≠ "" ∧ pyStrip (rget r "Código") ≠ "") := by simp
      rw [if_neg hdbg]
      rcases hl : lookup (pyStrip (rget r "Código")) with ⟨odc, odcom⟩
      match odc, odcom with
      | some dc, some dcom =>
        by_cases hcomp : toYYYYMM dc = comp
        · by_cases hpay : toYYYYMM dcom = pay
          · have hp : rowPasses lookup comp pay r = true := by
              rw [rowPasses]; simp [hc, hl, hcomp, hpay]
            simp only [hl, if_pos hcomp, if_pos hpay, if_neg (by simp : ¬ (("" : String) ≠ ""))]
            rw [ih]
            simp [hp]
          · have hp : rowPasses lookup comp pay r = false := by
              rw [rowPasses]; simp [hc, hl, hcomp, hpay]
            simp only [hl, if_pos hcomp, if_neg hpay]
            rw [ih]
            simp [hp]
        · have hp : rowPasses lookup comp pay r = false := by
            rw [rowPasses]; simp [hc, hl, hcomp]
          simp only [hl, if_neg hcomp]
          rw [ih]
          simp [hp]
      | some dc, Option.none =>
        have hp : rowPasses lookup comp pay r = false := by
          rw [rowPasses]; simp [hc, hl]
        simp only [hl]
        rw [ih]
        simp [hp]
      | Option.none, odcom =>
        have hp : rowPasses lookup comp pay r = false := by
          rw [rowPasses]; simp [hc, hl]
        simp only [hl]
        rw [ih]
        cases odcom <;> simp [hp]

/-! ## Spreadsheet reader (`_safe_headers`, `_get_records_tolerant`) -/

/-- `used.get(base, 0)` of `_safe_headers`. -/
def lookupCount (used : List (String × ℕ)) (b : String) : ℕ :=
  match used.find? (fun p => p.1 == b) with
  | some p => p.2
  | Option.none => 0

/-- `used[base] = n` of `_safe_headers`. -/
def setCount (used : List (String × ℕ)) (b : String) (n : ℕ) : List (String × ℕ) :=
  used.filter (fun p => p.1 != b) ++ [(b, n)]

/-- The base name of the header at position `i`: its stripped text, or the
positional placeholder `COLUNA {i+1}` when blank. -/
def baseOf (i : ℕ) (h : String) : String :=
  if pyStrip h = "" then "COLUNA " ++ natStr (i + 1) else pyStrip h

/-- The emitted column name: the base itself for the first occurrence,
`base__{n+1}` for repeat number `n ≥ 1`. -/
def mkName (b : String) (n : ℕ) : String :=
  if n = 0 then b else b ++ "__" ++ natStr (n + 1)

/-- The loop of `_safe_headers`. -/
def safeHeadersGo (i : ℕ) (used : List (String × ℕ)) : List String → List String
  | [] => []
  | h :: rest =>
    let base := baseOf i h
    let n := lookupCount used base
    mkName base n :: safeHeadersGo (i + 1) (setCount used base (n + 1)) rest

/-- Embedding of `_safe_headers`. -/
def safe_headers (headers : List String) : List String :=
  safeHeadersGo 0 [] headers

/-- The `(base, occurrence-count)` pairs underlying the emitted names. -/
def safeHeadersPairsGo (i : ℕ) (used : List (String × ℕ)) : List String → List (String × ℕ)
  | [] => []
  | h :: rest =>
    let base := baseOf i h
    let n := lookupCount used base
    (base, n) :: safeHeadersPairsGo (i + 1) (setCount used base (n + 1)) rest

/-- Padding and truncation `(row + [""] * len(headers))[:len(headers)]`. -/
def padTrunc (n : ℕ) (row : List String) : List String :=
  (row ++ List.replicate n "").take n

/-- The all-blank test `all(not str(x).strip() for x in row)`. -/
def allBlankB (row : List String) : Bool :=
  row.all (fun x => pyStrip x == "")

/-- Embedding of `_get_records_tolerant` (with the default `header_row = 1`):
header names from the first row, then one association-list record per
surviving data row. -/
def get_records_tolerant (values : List (List String)) : List Row :=
  match values with
  | [] => []
  | hd :: body =>
    let headers := safe_headers hd
    body.filterMap (fun row =>
      let r := padTrunc headers.length row
      if allBlankB r then Option.none else some (headers.zip r))

example : safe_headers ["A", "A__2", "A"] = ["A", "A__2", "A__2"] := by decide
example : safe_headers ["", "x", "x", "x"] = ["COLUNA 1", "x", "x__2", "x__3"] := by decide

/-- No two consecutive underscores occur in the character list. -/
def noDunderB : List Char → Bool
  | [] => true
  | [_] => true
  | a :: b :: rest => !(a == '_' && b == '_') && noDunderB (b :: rest)

lemma noDunderB_of_no_underscore {l : List Char} (h : ∀ c ∈ l, c ≠ '_') :
    noDunderB l = true := by
  induction l with
  | nil => rfl
  | cons a t ih =>
    cases t with
    | nil => rfl
    | cons b r =>
      have ha : a ≠ '_' := h a (List.mem_cons_self _ _)
      have ht : ∀ c ∈ b :: r, c ≠ '_' := fun c hc => h c (List.mem_cons_of_mem _ hc)
      rw [noDunderB]
      simp [ha, ih ht]

lemma noDunderB_tail {a : Char} {l : List Char} (h : noDunderB (a :: l) = true) :
    noDunderB l = true := by
  cases l with
  | nil => rfl
  | cons b r =>
    rw [noDunderB] at h
    simp only [Bool.and_eq_true] at h
    exact h.2

lemma noDunderB_append_dunder (l r : List Char) :
    noDunderB (l ++ '_' :: '_' :: r) = false := by
  induction l with
  | nil => simp [noDunderB]
  | cons a t ih =>
    cases ht : t ++ '_' :: '_' :: r with
    | nil => exact absurd ht (List.append_ne_nil_of_right_ne_nil t (by simp))
    | cons x xs =>
      have : noDunderB (x :: xs) = false := ht ▸ ih
      simp only [List.cons_append, ht, noDunderB, this, Bool.and_false]

lemma natDigitsF_digits : ∀ (fuel n : ℕ), ∀ c ∈ natDigitsF fuel n, c.isDigit = true := by
  intro fuel
  induction fuel with
  | zero => intro n c hc; simp [natDigitsF] at hc
  | succ f ih =>
    intro n c hc
    rw [natDigitsF] at hc
    have hdc : ∀ m, m < 10 → (Nat.digitChar m).isDigit = true := by decide
    by_cases h : n < 10
    · rw [if_pos h] at hc
      simp at hc
      exact hc ▸ hdc n h
    · rw [if_neg h] at hc
      rcases List.mem_append.mp hc with h1 | h2
      · exact ih _ c h1
      · simp at h2
        exact h2 ▸ hdc _ (Nat.mod_lt _ (by omega))

lemma natDigitsF_ne_nil (fuel n : ℕ) (hf : 0 < fuel) : natDigitsF fuel n ≠ [] := by
  cases fuel with
  | zero => omega
  | succ f =>
    rw [natDigitsF]
    by_cases h : n < 10
    · simp [h]
    · rw [if_neg h]
      exact List.append_ne_nil_of_right_ne_nil _ (by simp)

lemma natDigitsF_fuelIrrel : ∀ (n f₁ f₂ : ℕ), n < f₁ → n < f₂ →
    natDigitsF f₁ n = natDigitsF f₂ n := by
  intro n
  induction n using Nat.strong_induction_on with
  | _ n ih =>
    intro f₁ f₂ h₁ h₂
    match f₁, f₂ with
    | g₁ + 1, g₂ + 1 =>
      rw [natDigitsF, natDigitsF]
      by_cases h : n < 10
      · rw [if_pos h, if_pos h]
      · have hlt : n / 10 < n := Nat.div_lt_self (by omega) (by omega)
        rw [if_neg h, if_neg h, ih (n / 10) hlt g₁ g₂ (by omega) (by omega)]

lemma natStr_digits (n : ℕ) : ∀ c ∈ (natStr n).data, c.isDigit = true := by
  intro c hc
  exact natDigitsF_digits (n + 1) n c hc

lemma natStr_ne_nil (n : ℕ) : (natStr n).data ≠ [] :=
  natDigitsF_ne_nil (n + 1) n (by omega)

lemma natStr_inj : ∀ (m n : ℕ), natStr m = natStr n → m = n := by
  have key : ∀ (m n : ℕ), natDigitsF (m + 1) m = natDigitsF (n + 1) n → m = n := by
    intro m
    induction m using Nat.strong_induction_on with
    | _ m ih =>
      intro n he
      rw [natDigitsF, natDigitsF] at he
      have hdc : ∀ a, a < 10 → ∀ b, b < 10 → Nat.digitChar a = Nat.digitChar b → a = b := by
        decide
      by_cases hm : m < 10 <;> by_cases hn : n < 10
      · rw [if_pos hm, if_pos hn] at he
        simp at he
        exact hdc m hm n hn he
      · rw [if_pos hm, if_neg hn] at he
        have hne := natDigitsF_ne_nil n (n / 10) (by omega)
        have hlen := congrArg List.length he
        simp only [List.length_cons, List.length_nil, List.length_append] at hlen
        have h0 : (natDigitsF n (n / 10)).length = 0 := by omega
        exact absurd (List.length_eq_zero.mp h0) hne
      · rw [if_neg hm, if_pos hn] at he
        have hne := natDigitsF_ne_nil m (m / 10) (by omega)
        have hlen := congrArg List.length he
        simp only [List.length_cons, List.length_nil, List.length_append] at hlen
        have h0 : (natDigitsF m (m / 10)).length = 0 := by omega
        exact absurd (List.length_eq_zero.mp h0) hne
      · rw [if_neg hm, if_neg hn] at he
        have hrev := congrArg List.reverse he
        simp only [List.reverse_append, List.reverse_cons, List.reverse_nil,
          List.nil_append, List.cons_append] at hrev
        obtain ⟨hlast, hrest⟩ := List.cons.inj hrev
        have hinit : natDigitsF m (m / 10) = natDigitsF n (n / 10) :=
          List.reverse_injective hrest
        have hmod : m % 10 = n % 10 :=
          hdc _ (Nat.mod_lt _ (by omega)) _ (Nat.mod_lt _ (by omega)) hlast
        have hmlt : m / 10 < m := Nat.div_lt_self (by omega) (by omega)
        have hnlt : n / 10 < n := Nat.div_lt_self (by omega) (by omega)
        have h₁ : natDigitsF (m / 10 + 1) (m / 10) = natDigitsF m (m / 10) :=
          natDigitsF_fuelIrrel (m / 10) _ _ (by omega) (by omega)
        have h₂ : natDigitsF n (n / 10) = natDigitsF (n / 10 + 1) (n / 10) :=
          natDigitsF_fuelIrrel (n / 10) _ _ (by omega) (by omega)
        have hdiv : m / 10 = n / 10 := ih (m / 10) hmlt (n / 10) (h₁.trans (hinit.trans h₂))
        omega
  intro m n h
  exact key m n (congrArg String.data h)

lemma digit_ne_underscore {c : Char} (h : c.isDigit = true) : c ≠ '_' := by
  intro he
  subst he
  simp [Char.isDigit] at h

lemma dunder_append_inj : ∀ (x₁ x₂ y₁ y₂ : List Char),
    noDunderB x₁ = true → noDunderB x₂ = true →
    (∀ c ∈ y₁, c.isDigit = true) → (∀ c ∈ y₂, c.isDigit = true) →
    x₁ ++ '_' :: '_' :: y₁ = x₂ ++ '_' :: '_' :: y₂ → x₁ = x₂ ∧ y₁ = y₂ := by
  intro x₁
  induction x₁ with
  | nil =>
    intro x₂ y₁ y₂ _ hx₂ hd₁ hd₂ he
    cases x₂ with
    | nil =>
      simp only [List.nil_append, List.cons.injEq, true_and] at he
      exact ⟨rfl, he⟩
    | cons c x₂' =>
      simp only [List.nil_append, List.cons_append] at he
      obtain ⟨hc, he'⟩ := List.cons.inj he
      cases x₂' with
      | nil =>
        simp only [List.nil_append] at he'
        obtain ⟨_, hy⟩ := List.cons.inj he'
        have : ('_' : Char) ∈ y₁ := hy ▸ List.mem_cons_self _ _
        exact absurd rfl (digit_ne_underscore (hd₁ _ this))
      | cons c' x₂'' =>
        simp only [List.cons_append] at he'
        obtain ⟨hc', _⟩ := List.cons.inj he'
        exfalso
        subst hc hc'
        have := noDunderB_append_dunder [] x₂''
        simp only [List.nil_append] at this
        rw [this] at hx₂
        exact Bool.false_ne_true hx₂
  | cons a x₁' ih =>
    intro x₂ y₁ y₂ hx₁ hx₂ hd₁ hd₂ he
    cases x₂ with
    | nil =>
      simp only [List.cons_append, List.nil_append] at he
      obtain ⟨ha, he'⟩ := List.cons.inj he
      cases x₁' with
      | nil =>
        simp only [List.nil_append] at he'
        obtain ⟨_, hy⟩ := List.cons.inj he'
        have : ('_' : Char) ∈ y₂ := by rw [← hy]; exact List.mem_cons_self _ _
        exact absurd rfl (digit_ne_underscore (hd₂ _ this))
      | cons b x₁'' =>
        simp only [List.cons_append] at he'
        obtain ⟨hb, _⟩ := List.cons.inj he'
        exfalso
        subst ha hb
        have := noDunderB_append_dunder [] x₁''
        simp only [List.nil_append] at this
        rw [this] at hx₁
        exact Bool.false_ne_true hx₁
    | cons c x₂' =>
      simp only [List.cons_append] at he
      obtain ⟨hac, he'⟩ := List.cons.inj he
      obtain ⟨h1, h2⟩ := ih x₂' y₁ y₂ (noDunderB_tail hx₁) (noDunderB_tail hx₂) hd₁ hd₂ he'
      exact ⟨by rw [hac, h1], h2⟩

lemma mkName_inj {b₁ b₂ : String} {n₁ n₂ : ℕ}
    (h₁ : noDunderB b₁.data = true) (h₂ : noDunderB b₂.data = true)
    (he : mkName b₁ n₁ = mkName b₂ n₂) : b₁ = b₂ ∧ n₁ = n₂ := by
  have hdd : ("__" : String).data = ['_', '_'] := rfl
  unfold mkName at he
  by_cases e₁ : n₁ = 0 <;> by_cases e₂ : n₂ = 0
  · rw [if_pos e₁, if_pos e₂] at he
    exact ⟨he, e₁.trans e₂.symm⟩
  · rw [if_pos e₁, if_neg e₂] at he
    exfalso
    have hd := congrArg String.data he
    rw [String.data_append, String.data_append, hdd, List.append_assoc] at hd
    simp only [List.cons_append, List.nil_append] at hd
    rw [hd, noDunderB_append_dunder] at h₁
    exact Bool.false_ne_true h₁
  · rw [if_neg e₁, if_pos e₂] at he
    exfalso
    have hd := congrArg String.data he
    rw [String.data_append, String.data_append, hdd, List.append_assoc] at hd
    simp only [List.cons_append, List.nil_append] at hd
    rw [← hd, noDunderB_append_dunder] at h₂
    exact Bool.false_ne_true h₂
  · rw [if_neg e₁, if_neg e₂] at he
    have hd := congrArg String.data he
    rw [String.data_append, String.data_append, String.data_append, String.data_append,
      hdd, List.append_assoc, List.append_assoc] at hd
    simp only [List.cons_append, List.nil_append] at hd
    obtain ⟨hb, hy⟩ := dunder_append_inj _ _ _ _ h₁ h₂ (natStr_digits _) (natStr_digits _) hd
    refine ⟨String.ext hb, ?_⟩
    have := natStr_inj (n₁ + 1) (n₂ + 1) (String.ext hy)
    omega

lemma lookupCount_cons (p : String × ℕ) (l : List (String × ℕ)) (c : String) :
    lookupCount (p :: l) c = if (p.1 == c) = true then p.2 else lookupCount l c := by
  by_cases h : (p.1 == c) = true
  · simp [lookupCount, List.find?_cons, h]
  · have h' : (p.1 == c) = false := Bool.not_eq_true _ ▸ h
    simp [lookupCount, List.find?_cons, h']

lemma lookupCount_setCount_self (used : List (String × ℕ)) (b : String) (n : ℕ) :
    lookupCount (setCount used b n) b = n := by
  induction used with
  | nil => simp [setCount, lookupCount_cons, lookupCount]
  | cons p rest ih =>
    by_cases hk : p.1 = b
    · have : (p.1 != b) = false := by simp [hk]
      simp only [setCount, List.filter_cons, this, Bool.false_eq_true, if_false]
      simpa [setCount] using ih
    · have h1 : (p.1 != b) = true := by simp [hk]
      have h2 : (p.1 == b) = false := by simp [hk]
      simp only [setCount, List.filter_cons, h1, if_true, List.cons_append]
      rw [lookupCount_cons]
      simp only [h2, Bool.false_eq_true, if_false]
      simpa [setCount] using ih

lemma lookupCount_setCount_ne (used : List (String × ℕ)) {b c : String} (n : ℕ)
    (hbc : c ≠ b) : lookupCount (setCount used b n) c = lookupCount used c := by
  induction used with
  | nil =>
    have : (b == c) = false := by simp [Ne.symm hbc]
    simp [setCount, lookupCount_cons, this, lookupCount]
  | cons p rest ih =>
    by_cases hk : p.1 = b
    · have hbne : (p.1 != b) = false := by simp [hk]
      have hcne : (p.1 == c) = false := by simp [hk, Ne.symm hbc]
      simp only [setCount, List.filter_cons, hbne, Bool.false_eq_true, if_false]
      rw [lookupCount_cons]
      simp only [hcne, Bool.false_eq_true, if_false]
      simpa [setCount] using ih
    · have hbne : (p.1 != b) = true := by simp [hk]
      simp only [setCount, List.filter_cons, hbne, if_true, List.cons_append]
      rw [lookupCount_cons, lookupCount_cons]
      by_cases hc : (p.1 == c) = true
      · simp [hc]
      · have hc' : (p.1 == c) = false := Bool.not_eq_true _ ▸ hc
        simp only [hc', Bool.false_eq_true, if_false]
        simpa [setCount] using ih

lemma pairsGo_count_le : ∀ (hs : List String) (i : ℕ) (used : List (String × ℕ))
    (b : String) (m : ℕ), (b, m) ∈ safeHeadersPairsGo i used hs → lookupCount used b ≤ m := by
  intro hs
  induction hs with
  | nil => intro i used b m hm; simp [safeHeadersPairsGo] at hm
  | cons h rest ih =>
    intro i used b m hm
    rw [safeHeadersPairsGo] at hm
    rcases List.mem_cons.mp hm with he | ht
    · injection he with hb hn
      subst hb hn
      exact Nat.le_refl _
    · have hle := ih (i + 1) _ b m ht
      by_cases hb : b = baseOf i h
      · subst hb
        rw [lookupCount_setCount_self] at hle
        omega
      · rwa [lookupCount_setCount_ne _ _ hb] at hle

lemma pairsGo_nodup : ∀ (hs : List String) (i : ℕ) (used : List (String × ℕ)),
    (safeHeadersPairsGo i used hs).Nodup := by
  intro hs
  induction hs with
  | nil => intro i used; simp [safeHeadersPairsGo]
  | cons h rest ih =>
    intro i used
    rw [safeHeadersPairsGo]
    refine List.nodup_cons.mpr ⟨fun hmem => ?_, ih _ _⟩
    have := pairsGo_count_le rest (i + 1) _ _ _ hmem
    rw [lookupCount_setCount_self] at this
    omega

lemma safeHeadersGo_eq_map : ∀ (hs : List String) (i : ℕ) (used : List (String × ℕ)),
    safeHeadersGo i used hs = (safeHeadersPairsGo i used hs).map (fun p => mkName p.1 p.2) := by
  intro hs
  induction hs with
  | nil => intro i used; rfl
  | cons h rest ih =>
    intro i used
    rw [safeHeadersGo, safeHeadersPairsGo, List.map_cons, ih]

lemma pairsGo_base : ∀ (hs : List String) (i : ℕ) (used : List (String × ℕ))
    (b : String) (m : ℕ), (b, m) ∈ safeHeadersPairsGo i used hs →
    ∃ j h, h ∈ hs ∧ b = baseOf j h := by
  intro hs
  induction hs with
  | nil => intro i used b m hm; simp [safeHeadersPairsGo] at hm
  | cons h rest ih =>
    intro i used b m hm
    rw [safeHeadersPairsGo] at hm
    rcases List.mem_cons.mp hm with he | ht
    · injection he with hb _
      exact ⟨i, h, List.mem_cons_self _ _, hb⟩
    · obtain ⟨j, h', hh', hb⟩ := ih (i + 1) _ b m ht
      exact ⟨j, h', List.mem_cons_of_mem _ hh', hb⟩

lemma noDunderB_baseOf {h : String} (i : ℕ) (hnd : noDunderB (pyStrip h).data = true) :
    noDunderB (baseOf i h).data = true := by
  unfold baseOf
  by_cases hb : pyStrip h = ""
  · rw [if_pos hb]
    apply noDunderB_of_no_underscore
    intro c hc
    rw [String.data_append] at hc
    rcases List.mem_append.mp hc with h1 | h2
    · have hno : ∀ a ∈ ("COLUNA " : String).data, a ≠ '_' := by decide
      exact hno c h1
    · exact digit_ne_underscore (natStr_digits _ c h2)
  · rw [if_neg hb]
    exact hnd

/-- Under the no-consecutive-underscores hypothesis on the trimmed headers,
`_safe_headers` emits pairwise distinct names. -/
lemma safe_headers_nodup (headers : List String)
    (hnd : ∀ h ∈ headers, noDunderB (pyStrip h).data = true) :
    (safe_headers headers).Nodup := by
  unfold safe_headers
  rw [safeHeadersGo_eq_map]
  refine List.Nodup.map_on ?_ (pairsGo_nodup headers 0 [])
  intro x hx y hy he
  obtain ⟨jx, hxh, hxmem, hxb⟩ := pairsGo_base headers 0 [] x.1 x.2 (by simpa using hx)
  obtain ⟨jy, hyh, hymem, hyb⟩ := pairsGo_base headers 0 [] y.1 y.2 (by simpa using hy)
  have hx1 : noDunderB x.1.data = true := hxb ▸ noDunderB_baseOf jx (hnd _ hxmem)
  have hy1 : noDunderB y.1.data = true := hyb ▸ noDunderB_baseOf jy (hnd _ hymem)
  obtain ⟨h1, h2⟩ := mkName_inj hx1 hy1 he
  exact Prod.ext h1 h2

lemma filterMap_if_eq_filter_map {α β : Type} (p : α → Bool) (f : α → β) (l : List α) :
    l.filterMap (fun x => if p x then Option.none else some (f x)) =
      (l.filter (fun x => !p x)).map f := by
  induction l with
  | nil => rfl
  | cons a t ih =>
    rw [List.filterMap_cons, List.filter_cons]
    by_cases h : p a
    · simp [h, ih]
    · have h' : p a = false := Bool.not_eq_true _ ▸ h
      simp [h', ih]

/-! ## Relational date lookup (`mysql_repo.py`)

The database is abstracted as the result of the embedded SQL query: for a
shipment number it yields the first matching row's
`(DATE_CREATION, DATE_COMMISSION)` pair (each nullable), or no row. The
boolean in the result records whether a connection was opened. -/

/-- The record returned by `get_shipment_dates_by_number`. -/
structure ShipmentDates where
  date_creation : Option Date
  date_comission : Option Date
deriving DecidableEq

/-- Embedding of `get_shipment_dates_by_number`. The input is `None` or a
string (`Option String`); a falsy value (`None` or `""`) short-circuits to
`ShipmentDates(None, None)` before `_mysql_conn()` is called, which the
second component (`true` iff a connection was opened) makes observable. -/
def get_shipment_dates_by_number (db : String → Option (Option Date × Option Date))
    (shipment : Option String) : ShipmentDates × Bool :=
  if shipment = Option.none ∨ shipment = some "" then (⟨Option.none, Option.none⟩, false)
  else
    match db (shipment.getD "") with
    | some (dc, dcom) => (⟨dc, dcom⟩, true)
    | Option.none => (⟨Option.none, Option.none⟩, true)

/-- Embedding of the compatibility wrapper `get_dates_by_shipment_number`. -/
def get_dates_by_shipment_number (db : String → Option (Option Date × Option Date))
    (shipment : Option String) : (Option Date × Option Date) × Bool :=
  let r := get_shipment_dates_by_number db shipment
  ((r.1.date_creation, r.1.date_comission), r.2)

/-! ## Debug precheck and the whole-run aggregation (`main`) -/

lemma find?_append_cases {α : Type} (p : α → Bool) (l₁ l₂ : List α) :
    (l₁ ++ l₂).find? p =
      match l₁.find? p with
      | some x => some x
      | Option.none => l₂.find? p := by
  induction l₁ with
  | nil => simp
  | cons a t ih =>
    rw [List.cons_append, List.find?_cons, List.find?_cons]
    by_cases h : p a
    · simp [h]
    · have h' : p a = false := Bool.not_eq_true _ ▸ h
      simp [h', ih]

lemma find?_filter_key (r : Row) (k c : String) (hck : c ≠ k) :
    (r.filter (fun p => p.1 != k)).find? (fun p => p.1 == c) =
      r.find? (fun p => p.1 == c) := by
  induction r with
  | nil => rfl
  | cons p rest ih =>
    rw [List.filter_cons]
    by_cases hk : p.1 = k
    · have h1 : (p.1 != k) = false := by simp [hk]
      have h2 : (p.1 == c) = false := by simp [hk, Ne.symm hck]
      simp only [h1, Bool.false_eq_true, if_false, List.find?_cons, h2]
      exact ih
    · have h1 : (p.1 != k) = true := by simp [hk]
      simp only [h1, if_true, List.find?_cons]
      by_cases hc : (p.1 == c) = true
      · simp [hc]
      · have hc' : (p.1 == c) = false := Bool.not_eq_true _ ▸ hc
        simp [hc', ih]

lemma rget_rowSet_ne (r : Row) (k v c : String) (hck : c ≠ k) :
    rget (rowSet r k v) c = rget r c := by
  unfold rget rowSet
  rw [find?_append_cases, find?_filter_key r k c hck]
  cases hf : r.find? (fun p => p.1 == c) with
  | some x => rfl
  | none =>
    have : ((k, v).1 == c) = false := by simp [Ne.symm hck]
    simp [List.find?_cons, this, List.find?]

lemma rowSet_rowSet (r : Row) (k v v' : String) :
    rowSet (rowSet r k v) k v' = rowSet r k v' := by
  unfold rowSet
  rw [List.filter_append, List.filter_filter]
  have h1 : (List.filter (fun p => p.1 != k) [(k, v)]) = [] := by simp
  have h2 : List.filter (fun p => p.1 != k && p.1 != k) r = List.filter (fun p => p.1 != k) r := by
    apply List.filter_congr
    intro x _
    rw [Bool.and_self]
  rw [h1, h2, List.append_nil]

/-- Embedding of `run_for_person`: the GP-column check, the rate resolution,
the vendedor filter, and one `procRows` pass per requested `competencia`;
returns the per-competência results and the overall totals. -/
def run_for_person (niveis ap : DF) (lookup : LookupT) (nome nivel : String)
    (competencias : List String) (pay debug : String) :
    Except Err (List (String × List Row × ℚ × ℚ) × ℚ × ℚ) :=
  if "Profit Liquido" ∉ ap.cols then .error .noGpCol
  else
    match get_percentual_sales_exec niveis nivel with
    | .error e => .error e
    | .ok pct =>
      match filter_apurado_by_vendedor ap nome with
      | .error e => .error e
      | .ok dfp =>
        let per := competencias.map
          (fun comp => (comp, procRows lookup debug pct comp pay dfp.rows))
        .ok (per, (per.map (fun x => x.2.2.1)).sum, (per.map (fun x => x.2.2.2)).sum)

/-- The rows of the apurado table that survive the vendedor filter. -/
def vendRows (ap : DF) (nome : String) : List Row :=
  ap.rows.filter (fun r => pyContainsCI nome (rget r "Vendedor"))

/-- The rows of the apurado table that end up in the report for one
`(competencia, pay)` pair: the vendedor filter followed by the row loop's
acceptance test. -/
def includedRows (ap : DF) (lookup : LookupT) (nome comp pay : String) : List Row :=
  (vendRows ap nome).filter (rowPasses lookup comp pay)

/-- The columns of the apurado table after the `_codigo_norm` assignment:
unchanged when already present, appended otherwise. -/
def colsWithNorm (cs : List String) : List String :=
  if cs.contains "_codigo_norm" then cs else cs ++ ["_codigo_norm"]

/-- The row-level effect of `df_ap["_codigo_norm"] = df_ap["Código"].astype(str).str.strip()`. -/
def normCodigoRow (r : Row) : Row :=
  rowSet r "_codigo_norm" (pyStrip (rget r "Código"))

/-- Embedding of `_debug_precheck_in_apurados`: with a debug code set and the
`Código` column present, it assigns the `_codigo_norm` column on the SHARED
apurado table (the one in-place mutation of the pipeline); otherwise the
table is untouched. -/
def debug_precheck_in_apurados (df : DF) (debug : String) : DF :=
  if debug = "" then df
  else if "Código" ∉ df.cols then df
  else ⟨colsWithNorm df.cols, df.rows.map normCodigoRow⟩

lemma colsWithNorm_contains (cs : List String) :
    (colsWithNorm cs).contains "_codigo_norm" = true := by
  unfold colsWithNorm
  by_cases h : cs.contains "_codigo_norm" = true
  · rw [if_pos h]
    exact h
  · rw [if_neg h]
    exact List.elem_eq_true_of_mem (List.mem_append_right _ (by simp))

lemma colsWithNorm_idem (cs : List String) : colsWithNorm (colsWithNorm cs) = colsWithNorm cs := by
  show (if (colsWithNorm cs).contains "_codigo_norm" = true then colsWithNorm cs else _) =
    colsWithNorm cs
  rw [if_pos (colsWithNorm_contains cs)]

lemma codigo_mem_colsWithNorm {cs : List String} (h : "Código" ∈ cs) :
    "Código" ∈ colsWithNorm cs := by
  unfold colsWithNorm
  by_cases hm : cs.contains "_codigo_norm" = true
  · rw [if_pos hm]
    exact h
  · rw [if_neg hm]
    exact List.mem_append_left _ h

lemma normCodigoRow_idem (r : Row) : normCodigoRow (normCodigoRow r) = normCodigoRow r := by
  show rowSet (rowSet r "_codigo_norm" (pyStrip (rget r "Código"))) "_codigo_norm"
      (pyStrip (rget (rowSet r "_codigo_norm" (pyStrip (rget r "Código"))) "Código")) =
    rowSet r "_codigo_norm" (pyStrip (rget r "Código"))
  rw [rget_rowSet_ne _ _ _ _ (by decide), rowSet_rowSet]

lemma precheck_idem (df : DF) (debug : String) :
    debug_precheck_in_apurados (debug_precheck_in_apurados df debug) debug =
      debug_precheck_in_apurados df debug := by
  unfold debug_precheck_in_apurados
  by_cases hd : debug = ""
  · simp [hd]
  · rw [if_neg hd, if_neg hd]
    by_cases hc : "Código" ∈ df.cols
    · rw [if_neg (not_not_intro hc)]
      rw [if_neg (not_not_intro (show "Código" ∈ (DF.mk (colsWithNorm df.cols)
        (df.rows.map normCodigoRow)).cols from codigo_mem_colsWithNorm hc))]
      show DF.mk (colsWithNorm (colsWithNorm df.cols)) ((df.rows.map normCodigoRow).map normCodigoRow) = _
      rw [colsWithNorm_idem, List.map_map]
      refine congrArg (DF.mk _) ?_
      apply List.map_congr_left
      intro r _
      exact normCodigoRow_idem r
    · rw [if_pos hc, if_pos hc]

/-- Embedding of the aggregation driven by `main` (I/O removed): the debug
precheck mutates the apurado table, then the per-person totals are summed
over the roster. Returns the tables as left for a subsequent run together
with the grand totals. -/
def peopleFold (niveis ap' : DF) (lookup : LookupT) (competencias : List String)
    (pay debug : String) (people : List Person) : Except Err (ℚ × ℚ) :=
  people.foldlM (fun (acc : ℚ × ℚ) p =>
    match run_for_person niveis ap' lookup p.nome p.nivel competencias pay debug with
    | .error e => Except.error e
    | .ok out => Except.ok (acc.1 + out.2.1, acc.2 + out.2.2)) ((0 : ℚ), (0 : ℚ))

def mainAgg (niveis meta ap : DF) (lookup : LookupT) (competencias : List String)
    (pay debug : String) : Except Err ((DF × DF × DF) × ℚ × ℚ) :=
  match get_sales_exec_people meta with
  | .error e => .error e
  | .ok people =>
    if people.isEmpty then .error .noPeople
    else
      match peopleFold niveis (debug_precheck_in_apurados ap debug) lookup
          competencias pay debug people with
      | .error e => .error e
      | .ok t => .ok ((niveis, meta, debug_precheck_in_apurados ap debug), t.1, t.2)

/-! ## Claim theorems -/

/-- C10: for every falsy shipment number (`None` or the empty string), both
`get_shipment_dates_by_number` and `get_dates_by_shipment_number` return the
all-`None` date pair immediately, without opening a database connection
(the `false` flag) or consulting the query function. -/
theorem c10_falsy_shipment_short_circuit
    (db : String → Option (Option Date × Option Date)) (s : Option String)
    (h : s = Option.none ∨ s = some "") :
    get_shipment_dates_by_number db s = (⟨Option.none, Option.none⟩, false) ∧
    get_dates_by_shipment_number db s = ((Option.none, Option.none), false) := by
  constructor
  · rw [get_shipment_dates_by_number, if_pos h]
  · rw [get_dates_by_shipment_number, get_shipment_dates_by_number, if_pos h]

/-- Witness for C10 at the empty shipment number against a database that
would return a row for every key. -/
theorem c10_falsy_shipment_short_circuit_witness :
    get_shipment_dates_by_number
        (fun _ => some (some ⟨2025, 1, 1⟩, some ⟨2025, 2, 2⟩)) (some "") =
      (⟨Option.none, Option.none⟩, false) ∧
    get_dates_by_shipment_number
        (fun _ => some (some ⟨2025, 1, 1⟩, some ⟨2025, 2, 2⟩)) (some "") =
      ((Option.none, Option.none), false) :=
  c10_falsy_shipment_short_circuit _ (some "") (Or.inr rfl)

/-- C1 counterexample: a table whose matched `Sales Executive` cell is the
bare string `"%"` — the cell ends in `%`, so by the claim the resolver
should return the percentage divided by 100, yet the embedded `float`
conversion raises (an uncaught `ValueError`), i.e. the call neither raises
one of the claim's two error kinds nor returns a value. -/
theorem c1_counterexample :
    get_percentual_sales_exec
        ⟨["Niveis", "Sales Executive"], [[("Niveis", "Guardiao"), ("Sales Executive", "%")]]⟩
        "Guardiao" = .error Err.floatConvErr ∧
    ([[("Niveis", "Guardiao"), ("Sales Executive", "%")]] : List Row).find?
        (fun r => normText (rget r "Niveis") == normText "Guardiao") =
      some [("Niveis", "Guardiao"), ("Sales Executive", "%")] ∧
    (pyStrip (rget [("Niveis", "Guardiao"), ("Sales Executive", "%")] "Sales Executive")).data.getLast?
      = some '%' := by
  refine ⟨by decide, by decide, by decide⟩

set_option maxHeartbeats 1600000 in
/-- C1 (amended): with the `Niveis` column present, the resolver raises the
lookup error iff no row's normalized level matches, raises the
malformed-percentage error iff the first matching row's cell does not end
in `%`, and otherwise returns the cell's pt-BR numeric content divided by
100 **provided that content parses as a number** — when it does not (e.g. a
bare `"%"`), an uncaught conversion error is raised instead.  In
particular, for `Guardiao → "50%"`, resolving `"guardião"` yields `1/2`. -/
theorem c1_rate_resolver :
    (∀ (df : DF) (nivel : String), "Niveis" ∈ df.cols →
      ((get_percentual_sales_exec df nivel = .error Err.nivelNotFound ↔
          ∀ r ∈ df.rows, normText (rget r "Niveis") ≠ normText nivel) ∧
       (get_percentual_sales_exec df nivel = .error Err.invalidPct ↔
          ∃ row, df.rows.find? (fun r => normText (rget r "Niveis") == normText nivel) = some row ∧
            (pyStrip (rget row "Sales Executive")).data.getLast? ≠ some '%') ∧
       (∀ row, df.rows.find? (fun r => normText (rget r "Niveis") == normText nivel) = some row →
          (pyStrip (rget row "Sales Executive")).data.getLast? = some '%' →
          ((∀ q, pyParseNum (pctNumStr row) = some q →
              get_percentual_sales_exec df nivel = .ok (q / 100)) ∧
           (pyParseNum (pctNumStr row) = Option.none →
              get_percentual_sales_exec df nivel = .error Err.floatConvErr))))) ∧
    get_percentual_sales_exec
        ⟨["Niveis", "Sales Executive"], [[("Niveis", "Guardiao"), ("Sales Executive", "50%")]]⟩
        "guardião" = .ok (1 / 2) := by
  constructor
  · intro df nivel hN
    have hval : get_percentual_sales_exec df nivel =
        (match df.rows.find? (fun r => normText (rget r "Niveis") == normText nivel) with
         | Option.none => .error Err.nivelNotFound
         | some row =>
           if (pyStrip (rget row "Sales Executive")).data.getLast? ≠ some '%' then
             .error Err.invalidPct
           else
             match pyParseNum (pctNumStr row) with
             | some q => .ok (q / 100)
             | Option.none => .error Err.floatConvErr) := by
      rw [get_percentual_sales_exec, if_neg (not_not_intro hN)]
    cases hfind : df.rows.find? (fun r => normText (rget r "Niveis") == normText nivel) with
    | none =>
      rw [hfind] at hval
      have hval' : get_percentual_sales_exec df nivel = .error Err.nivelNotFound := hval
      have hall := List.find?_eq_none.mp hfind
      refine ⟨⟨fun _ => ?_, fun _ => hval'⟩, ⟨fun hv => ?_, fun hx => ?_⟩, fun row hrow => ?_⟩
      · intro r hr he
        exact hall r hr (by simp [he])
      · rw [hval'] at hv
        exact absurd hv (by decide)
      · obtain ⟨row, hrow, _⟩ := hx
        exact Option.noConfusion hrow
      · exact Option.noConfusion hrow
    | some row =>
      rw [hfind] at hval
      have hrowmem : row ∈ df.rows := List.mem_of_find?_eq_some hfind
      have hrowpred := List.find?_some hfind
      by_cases hpct : (pyStrip (rget row "Sales Executive")).data.getLast? = some '%'
      · have hval₁ : get_percentual_sales_exec df nivel =
            (if (pyStrip (rget row "Sales Executive")).data.getLast? ≠ some '%' then
               .error Err.invalidPct
             else
               match pyParseNum (pctNumStr row) with
               | some q => .ok (q / 100)
               | Option.none => .error Err.floatConvErr) := hval
        rw [if_neg (not_not_intro hpct)] at hval₁
        cases hparse : pyParseNum (pctNumStr row) with
        | none =>
          rw [hparse] at hval₁
          have hval' : get_percentual_sales_exec df nivel = .error Err.floatConvErr := hval₁
          refine ⟨⟨fun hv => ?_, fun hx => ?_⟩, ⟨fun hv => ?_, fun hx => ?_⟩,
            fun row' hrow' => ?_⟩
          · rw [hval'] at hv
            exact absurd hv (by decide)
          · exact absurd (hx row hrowmem) (by simpa using hrowpred)
          · rw [hval'] at hv
            exact absurd hv (by decide)
          · obtain ⟨row', hrow', hne⟩ := hx
            injection hrow' with hr
            subst hr
            exact absurd hpct hne
          · injection hrow' with hr
            subst hr
            intro _
            refine ⟨fun q hq => ?_, fun _ => hval'⟩
            rw [hparse] at hq
            exact Option.noConfusion hq
        | some q =>
          rw [hparse] at hval₁
          have hval' : get_percentual_sales_exec df nivel = .ok (q / 100) := hval₁
          refine ⟨⟨fun hv => ?_, fun hx => ?_⟩, ⟨fun hv => ?_, fun hx => ?_⟩,
            fun row' hrow' => ?_⟩
          · rw [hval'] at hv
            exact absurd hv (by simp)
          · exact absurd (hx row hrowmem) (by simpa using hrowpred)
          · rw [hval'] at hv
            exact absurd hv (by simp)
          · obtain ⟨row', hrow', hne⟩ := hx
            injection hrow' with hr
            subst hr
            exact absurd hpct hne
          · injection hrow' with hr
            subst hr
            intro _
            refine ⟨fun q' hq' => ?_, fun hnone => ?_⟩
            · rw [hparse] at hq'
              injection hq' with hqq
              rw [hval', hqq]
            · rw [hparse] at hnone
              exact Option.noConfusion hnone
      · have hval₁ : get_percentual_sales_exec df nivel =
            (if (pyStrip (rget row "Sales Executive")).data.getLast? ≠ some '%' then
               .error Err.invalidPct
             else
               match pyParseNum (pctNumStr row) with
               | some q => .ok (q / 100)
               | Option.none => .error Err.floatConvErr) := hval
        rw [if_pos hpct] at hval₁
        refine ⟨⟨fun hv => ?_, fun hx => ?_⟩,
          ⟨fun _ => ⟨row, rfl, hpct⟩, fun _ => hval₁⟩, fun row' hrow' => ?_⟩
        · rw [hval₁] at hv
          exact absurd hv (by decide)
        · exact absurd (hx row hrowmem) (by simpa using hrowpred)
        · injection hrow' with hr
          subst hr
          intro hp
          exact absurd hp hpct
  · have h : get_percentual_sales_exec
        ⟨["Niveis", "Sales Executive"], [[("Niveis", "Guardiao"), ("Sales Executive", "50%")]]⟩
        "guardião" = .ok (repVal ⟨false, 50, 0, 0, 0⟩ / 100) := rfl
    rw [h]
    norm_num [repVal]

/-- Witness for C1: the amended trichotomy instantiated at the concrete
`Guardiao → "50%"` table with the accented target level. -/
theorem c1_rate_resolver_witness :
    ("Niveis" ∈ (DF.mk ["Niveis", "Sales Executive"]
        [[("Niveis", "Guardiao"), ("Sales Executive", "50%")]]).cols) ∧
    (get_percentual_sales_exec
        ⟨["Niveis", "Sales Executive"], [[("Niveis", "Guardiao"), ("Sales Executive", "50%")]]⟩
        "guardião" = .error Err.nivelNotFound ↔
      ∀ r ∈ (DF.mk ["Niveis", "Sales Executive"]
          [[("Niveis", "Guardiao"), ("Sales Executive", "50%")]]).rows,
        normText (rget r "Niveis") ≠ normText "guardião") :=
  ⟨by decide, (c1_rate_resolver.1 _ "guardião" (by decide)).1⟩

/-! ## Supporting lemmas for the parser claims -/

lemma removeRS_cons_ne (a : Char) (rest : List Char) (ha : a ≠ 'R') :
    removeRS (a :: rest) = a :: removeRS rest := by
  rw [removeRS.eq_def]
  split
  · rename_i heq
    exact absurd heq (by simp)
  · rename_i heq
    injection heq with e1 _
    exact absurd e1 ha
  · rename_i hno heq
    injection heq with e1 e2
    rw [← e1, ← e2]

lemma removeRS_consR_ne (b : Char) (r : List Char) (hb : b ≠ '$') :
    removeRS ('R' :: b :: r) = 'R' :: removeRS (b :: r) := by
  rw [removeRS.eq_def]
  split
  · rename_i heq
    exact absurd heq (by simp)
  · rename_i heq
    injection heq with _ h2
    injection h2 with eb _
    exact absurd eb hb
  · rename_i hno heq
    injection heq with e1 e2
    rw [← e1, ← e2]

lemma removeRS_id (t : List Char) (h : ∀ c ∈ t, c ≠ 'R') : removeRS t = t := by
  induction t with
  | nil => rfl
  | cons a rest ih =>
    rw [removeRS_cons_ne a rest (h a (List.mem_cons_self _ _))]
    rw [ih (fun c hc => h c (List.mem_cons_of_mem _ hc))]

lemma mem_removeRS (c : Char) (hR : c ≠ 'R') (hD : c ≠ '$') :
    ∀ (cs : List Char), c ∈ cs → c ∈ removeRS cs := by
  intro cs
  induction cs using removeRS.induct with
  | case1 => simp
  | case2 rest ih =>
    intro hc
    show c ∈ removeRS rest
    rcases List.mem_cons.mp hc with h | hc'
    · exact absurd h hR
    · rcases List.mem_cons.mp hc' with h | hc''
      · exact absurd h hD
      · exact ih hc''
  | case3 a rest hside ih =>
    intro hc
    by_cases haR : a = 'R'
    · subst haR
      cases rest with
      | nil =>
        rcases List.mem_cons.mp hc with h | h
        · exact absurd h hR
        · simp at h
      | cons b r =>
        have hb : b ≠ '$' := fun hb => hside r rfl (by rw [hb])
        rw [removeRS_consR_ne b r hb]
        rcases List.mem_cons.mp hc with h | h
        · exact absurd h hR
        · exact List.mem_cons_of_mem _ (ih h)
    · rw [removeRS_cons_ne a rest haR]
      rcases List.mem_cons.mp hc with h | h
      · exact h ▸ List.mem_cons_self _ _
      · exact List.mem_cons_of_mem _ (ih h)

/-- The character classes of a well-formed pt-BR money string (after an
optional leading `R$`): digits, signs, dot, comma and spaces. -/
def moneyOkChar (c : Char) : Bool :=
  c.isDigit || c = '+' || c = '-' || c = '.' || c = ',' || c = ' '

lemma moneyOk_ne_R {c : Char} (h : moneyOkChar c = true) : c ≠ 'R' := by
  intro he
  subst he
  revert h
  decide

lemma moneyOk_numKeep {c : Char} (h : moneyOkChar c = true) :
    numKeep c = decide (c ≠ ' ') := by
  by_cases hsp : c = ' '
  · subst hsp
    decide
  · simp only [moneyOkChar, Bool.or_eq_true, decide_eq_true_eq] at h
    rcases h with ((((h | h) | h) | h) | h) | h
    · simp [numKeep, h, hsp]
    · subst h; decide
    · subst h; decide
    · subst h; decide
    · subst h; decide
    · exact absurd h hsp

lemma comma_in_moneyClean {cs : List Char} (h : ',' ∈ cs) :
    ((removeRS cs).filter (fun c => c ≠ ' ')).contains ',' = true := by
  have h1 : ',' ∈ removeRS cs := mem_removeRS ',' (by decide) (by decide) cs h
  have h2 : ',' ∈ (removeRS cs).filter (fun c => c ≠ ' ') :=
    List.mem_filter.mpr ⟨h1, by decide⟩
  exact List.elem_eq_true_of_mem h2

/-- C4: the specification's test vectors for the money parser hold for BOTH
implementations (`parse_ptbr_number` of `number.py` and the scripts'
`parse_ptbr_money`); `None` maps to 0, numeric inputs pass through, and for
strings containing a comma the result is the parse of the string with dots
removed and the comma turned into the decimal point.  Python floats are
read as exact rationals (4374.34 is `437434/100`). -/
theorem c4_parse_money_vectors :
    (parse_ptbr_number (.str "R$ 4.374,34") = 437434 / 100 ∧
     parse_ptbr_money (.str "R$ 4.374,34") = 437434 / 100) ∧
    (parse_ptbr_number (.str "4374,34") = 437434 / 100 ∧
     parse_ptbr_money (.str "4374,34") = 437434 / 100) ∧
    (parse_ptbr_number (.str "") = 0 ∧ parse_ptbr_money (.str "") = 0) ∧
    (parse_ptbr_number .none = 0 ∧ parse_ptbr_money .none = 0) ∧
    (parse_ptbr_number (.num 1500) = 1500 ∧ parse_ptbr_money (.num 1500) = 1500) ∧
    (∀ q : ℚ, parse_ptbr_number (.num q) = q ∧ parse_ptbr_money (.num q) = q) ∧
    (∀ s : String, ',' ∈ (pyStrip s).data →
      parse_ptbr_money (.str s) =
        (pyParseNum (String.mk ((((removeRS (pyStrip s).data).filter (fun c => c ≠ ' ')).filter
          (fun c => c ≠ '.')).map (fun c => if c = ',' then '.' else c)))).getD 0) := by
  refine ⟨⟨?_, ?_⟩, ⟨?_, ?_⟩, ⟨rfl, rfl⟩, ⟨rfl, rfl⟩, ⟨rfl, rfl⟩,
    fun q => ⟨rfl, rfl⟩, ?_⟩
  · have h : parse_ptbr_number (.str "R$ 4.374,34") = repVal ⟨false, 4374, 34, 2, 0⟩ := rfl
    rw [h]
    norm_num [repVal]
  · have h : parse_ptbr_money (.str "R$ 4.374,34") = repVal ⟨false, 4374, 34, 2, 0⟩ := rfl
    rw [h]
    norm_num [repVal]
  · have h : parse_ptbr_number (.str "4374,34") = repVal ⟨false, 4374, 34, 2, 0⟩ := rfl
    rw [h]
    norm_num [repVal]
  · have h : parse_ptbr_money (.str "4374,34") = repVal ⟨false, 4374, 34, 2, 0⟩ := rfl
    rw [h]
    norm_num [repVal]
  · intro s hcomma
    have hne : ¬ pyStrip s = "" := by
      intro he
      rw [he] at hcomma
      simp at hcomma
    show (if pyStrip s = "" then (0 : ℚ)
      else (pyParseNum (moneyCleaned (pyStrip s))).getD 0) = _
    rw [if_neg hne]
    show ((pyParseNum (String.mk (brCommaSwap
      ((removeRS (pyStrip s).data).filter (fun c => c ≠ ' '))))).getD 0) = _
    rw [brCommaSwap, if_pos (comma_in_moneyClean hcomma)]

/-- Witness for C4's comma normalization clause at `"4374,34"`. -/
theorem c4_parse_money_vectors_witness :
    (',' ∈ (pyStrip "4374,34").data) ∧
    parse_ptbr_money (.str "4374,34") =
      (pyParseNum (String.mk ((((removeRS (pyStrip "4374,34").data).filter
        (fun c => c ≠ ' ')).filter (fun c => c ≠ '.')).map
          (fun c => if c = ',' then '.' else c)))).getD 0 :=
  ⟨by decide, c4_parse_money_vectors.2.2.2.2.2.2 "4374,34" (by decide)⟩

/-- C5 counterexample: on `"abc123"` the `number.py` parser strips the
letters with its regex and reads 123.0, while the scripts' parser leaves
them in place, fails the `float` call, and returns 0.0 — the two
implementations disagree. -/
theorem c5_counterexample :
    parse_ptbr_number (.str "abc123") = 123 ∧
    parse_ptbr_money (.str "abc123") = 0 ∧
    parse_ptbr_number (.str "abc123") ≠ parse_ptbr_money (.str "abc123") := by
  have h1 : parse_ptbr_number (.str "abc123") = repVal ⟨false, 123, 0, 0, 0⟩ := rfl
  have h2 : parse_ptbr_money (.str "abc123") = 0 := rfl
  refine ⟨?_, h2, ?_⟩
  · rw [h1]
    norm_num [repVal]
  · rw [h1, h2]
    norm_num [repVal]

/-- C5 (amended): the two money parsers agree on `None`, on numeric inputs,
and on every string whose stripped text — after an optional leading `"R$"` —
consists only of digits, signs, dots, commas and spaces; they can diverge
once other characters appear (see the counterexample). -/
theorem c5_parsers_agree (v : PyVal)
    (h : v = .none ∨ (∃ q, v = .num q) ∨
      ∃ s t, v = .str s ∧ ((pyStrip s).data = 'R' :: '$' :: t ∨ (pyStrip s).data = t) ∧
        (∀ c ∈ t, moneyOkChar c = true)) :
    parse_ptbr_number v = parse_ptbr_money v := by
  rcases h with h | ⟨q, h⟩ | ⟨s, t, hv, hshape, hok⟩
  · subst h; rfl
  · subst h; rfl
  · subst hv
    show (if pyStrip s = "" then (0 : ℚ)
        else (pyParseNum (numberCleaned (pyStrip s))).getD 0) =
      (if pyStrip s = "" then (0 : ℚ)
        else (pyParseNum (moneyCleaned (pyStrip s))).getD 0)
    by_cases hemp : pyStrip s = ""
    · rw [if_pos hemp, if_pos hemp]
    · rw [if_neg hemp, if_neg hemp]
      have hclean : numberCleaned (pyStrip s) = moneyCleaned (pyStrip s) := by
        unfold numberCleaned moneyCleaned
        congr 1
        congr 1
        have hfilter : t.filter numKeep = t.filter (fun c => c ≠ ' ') := by
          apply List.filter_congr
          intro c hc
          exact moneyOk_numKeep (hok c hc)
        have hrs : removeRS t = t :=
          removeRS_id t (fun c hc => moneyOk_ne_R (hok c hc))
        rcases hshape with hsh | hsh
        · rw [hsh]
          have : removeRS ('R' :: '$' :: t) = removeRS t := rfl
          rw [this, hrs]
          have hRk : numKeep 'R' = false := by decide
          have hDk : numKeep '$' = false := by decide
          rw [List.filter_cons, List.filter_cons, hRk, hDk]
          simp only [Bool.false_eq_true, if_false]
          exact hfilter
        · rw [hsh, hrs]
          exact hfilter
      rw [hclean]

/-- Witness for C5 at the specification's own vector `"R$ 4.374,34"`. -/
theorem c5_parsers_agree_witness :
    parse_ptbr_number (.str "R$ 4.374,34") = parse_ptbr_money (.str "R$ 4.374,34") :=
  c5_parsers_agree (.str "R$ 4.374,34")
    (Or.inr (Or.inr ⟨"R$ 4.374,34", " 4.374,34".data, rfl, Or.inl (by decide), by decide⟩))

/-- C7: both parser embeddings never raise — their exception-explicit
variants always return `ok` with exactly the total functions' values — and
any string whose cleaned text fails the numeric parse yields 0.0. -/
theorem c7_parse_money_total :
    (∀ v : PyVal, parsePtbrNumberE v = .ok (parse_ptbr_number v) ∧
      parsePtbrMoneyE v = .ok (parse_ptbr_money v)) ∧
    (∀ s : String, pyParseNum (numberCleaned (pyStrip s)) = Option.none →
      parse_ptbr_number (.str s) = 0) ∧
    (∀ s : String, pyParseNum (moneyCleaned (pyStrip s)) = Option.none →
      parse_ptbr_money (.str s) = 0) := by
  refine ⟨fun v => ?_, fun s h => ?_, fun s h => ?_⟩
  · cases v with
    | none => exact ⟨rfl, rfl⟩
    | num q => exact ⟨rfl, rfl⟩
    | str x =>
      constructor
      · show (if pyStrip x = "" then (Except.ok 0 : Except PyExc ℚ)
            else match pyDecimalFloatE (numberCleaned (pyStrip x)) with
              | .ok q => .ok q
              | .error e =>
                if e = PyExc.invalidOperation ∨ e = PyExc.valueError then .ok 0
                else .error e) =
          .ok (if pyStrip x = "" then (0 : ℚ)
            else (pyParseNum (numberCleaned (pyStrip x))).getD 0)
        by_cases hemp : pyStrip x = ""
        · rw [if_pos hemp, if_pos hemp]
        · rw [if_neg hemp, if_neg hemp]
          cases hp : pyParseNum (numberCleaned (pyStrip x)) with
          | none => rw [pyDecimalFloatE, hp]; rfl
          | some q => rw [pyDecimalFloatE, hp]; rfl
      · show (if pyStrip x = "" then (Except.ok 0 : Except PyExc ℚ)
            else match pyFloatE (moneyCleaned (pyStrip x)) with
              | .ok q => .ok q
              | .error _ => .ok 0) =
          .ok (if pyStrip x = "" then (0 : ℚ)
            else (pyParseNum (moneyCleaned (pyStrip x))).getD 0)
        by_cases hemp : pyStrip x = ""
        · rw [if_pos hemp, if_pos hemp]
        · rw [if_neg hemp, if_neg hemp]
          cases hp : pyParseNum (moneyCleaned (pyStrip x)) with
          | none => rw [pyFloatE, hp]; rfl
          | some q => rw [pyFloatE, hp]; rfl
  · show (if pyStrip s = "" then (0 : ℚ)
      else (pyParseNum (numberCleaned (pyStrip s))).getD 0) = 0
    by_cases hemp : pyStrip s = ""
    · rw [if_pos hemp]
    · rw [if_neg hemp, h]
      rfl
  · show (if pyStrip s = "" then (0 : ℚ)
      else (pyParseNum (moneyCleaned (pyStrip s))).getD 0) = 0
    by_cases hemp : pyStrip s = ""
    · rw [if_pos hemp]
    · rw [if_neg hemp, h]
      rfl

/-- Witness for C7 at an unparsable string. -/
theorem c7_parse_money_total_witness :
    (parsePtbrNumberE (.str "abc") = .ok (parse_ptbr_number (.str "abc")) ∧
     parsePtbrMoneyE (.str "abc") = .ok (parse_ptbr_money (.str "abc"))) ∧
    parse_ptbr_number (.str "abc") = 0 ∧
    parse_ptbr_money (.str "abc") = 0 :=
  ⟨c7_parse_money_total.1 (.str "abc"),
   c7_parse_money_total.2.1 "abc" (by decide),
   c7_parse_money_total.2.2 "abc" (by decide)⟩

/-- C6: with the required columns present, `get_sales_exec_people` returns
exactly the rows whose normalized `Função` equals the normalized target
role, with blank-name or blank-level rows dropped, deduplicated by the
lowercased email-or-name key keeping first occurrences in original order
(`specDedupFirst` is the specification's phrasing of that deduplication),
and the resulting keys are pairwise distinct. -/
theorem c6_roster_extraction (df : DF) (h : ∀ c ∈ metaRequired, c ∈ df.cols) :
    get_sales_exec_people df =
      .ok (specDedupFirst
        ((df.rows.filter
          (fun r => normText (rget r "Função") == normText "Sales Executive")).filterMap
          mkPerson?)) ∧
    ((specDedupFirst
        ((df.rows.filter
          (fun r => normText (rget r "Função") == normText "Sales Executive")).filterMap
          mkPerson?)).map personKey).Nodup := by
  have hall : metaRequired.all (fun c => df.cols.contains c) = true := by
    rw [List.all_eq_true]
    intro c hc
    exact List.elem_eq_true_of_mem (h c hc)
  have hcond : ¬ (metaRequired.all (fun c => df.cols.contains c) = false) := by
    rw [hall]
    simp
  refine ⟨?_, specDedupFirst_keys_nodup _⟩
  rw [get_sales_exec_people, if_neg hcond]
  show Except.ok (dedupSeen []
      ((df.rows.filter
        (fun r => normText (rget r "Função") == normText "Sales Executive")).filterMap
        mkPerson?)) = _
  congr 1
  rw [dedupSeen_eq_specDedupFirst]
  congr 1
  apply List.filter_eq_self.mpr
  intro p _
  simp

/-- Witness for C6: two rows whose emails differ only in case collapse to a
single entry, keeping the first. -/
theorem c6_roster_extraction_witness :
    (∀ c ∈ metaRequired, c ∈ (DF.mk ["Colaborador", "Email", "Função", "Nível"]
      [[("Colaborador", "Ana"), ("Email", "A@x.com"), ("Função", "Sales Executive"),
        ("Nível", "Guardiao")],
       [("Colaborador", "Ana B"), ("Email", "a@X.com"), ("Função", "sales executive"),
        ("Nível", "Guardiao")]]).cols) ∧
    get_sales_exec_people
      (DF.mk ["Colaborador", "Email", "Função", "Nível"]
        [[("Colaborador", "Ana"), ("Email", "A@x.com"), ("Função", "Sales Executive"),
          ("Nível", "Guardiao")],
         [("Colaborador", "Ana B"), ("Email", "a@X.com"), ("Função", "sales executive"),
          ("Nível", "Guardiao")]]) =
      .ok (specDedupFirst
        (((DF.mk ["Colaborador", "Email", "Função", "Nível"]
          [[("Colaborador", "Ana"), ("Email", "A@x.com"), ("Função", "Sales Executive"),
            ("Nível", "Guardiao")],
           [("Colaborador", "Ana B"), ("Email", "a@X.com"), ("Função", "sales executive"),
            ("Nível", "Guardiao")]]).rows.filter
          (fun r => normText (rget r "Função") == normText "Sales Executive")).filterMap
          mkPerson?)) ∧
    get_sales_exec_people
      (DF.mk ["Colaborador", "Email", "Função", "Nível"]
        [[("Colaborador", "Ana"), ("Email", "A@x.com"), ("Função", "Sales Executive"),
          ("Nível", "Guardiao")],
         [("Colaborador", "Ana B"), ("Email", "a@X.com"), ("Função", "sales executive"),
          ("Nível", "Guardiao")]]) =
      .ok [⟨"Ana", "A@x.com", "Guardiao"⟩] :=
  ⟨by decide, (c6_roster_extraction _ (by decide)).1, by decide⟩

lemma rowPasses_iff (lookup : LookupT) (comp pay : String) (r : Row) :
    rowPasses lookup comp pay r = true ↔
      (pyStrip (rget r "Código") ≠ "" ∧
       ∃ dc dcom, lookup (pyStrip (rget r "Código")) = (some dc, some dcom) ∧
         toYYYYMM dc = comp ∧ toYYYYMM dcom = pay) := by
  rw [rowPasses]
  by_cases hc : pyStrip (rget r "Código") = ""
  · rw [if_pos hc]
    simp [hc]
  · rw [if_neg hc]
    rcases hl : lookup (pyStrip (rget r "Código")) with ⟨odc, odcom⟩
    match odc, odcom with
    | some dc, some dcom =>
      constructor
      · intro h
        have h' : (if toYYYYMM dc = comp then
            (if toYYYYMM dcom = pay then true else false) else false) = true := h
        by_cases h1 : toYYYYMM dc = comp
        · rw [if_pos h1] at h'
          by_cases h2 : toYYYYMM dcom = pay
          · exact ⟨hc, dc, dcom, rfl, h1, h2⟩
          · rw [if_neg h2] at h'
            exact absurd h' (by simp)
        · rw [if_neg h1] at h'
          exact absurd h' (by simp)
      · rintro ⟨-, dc', dcom', heq, h1, h2⟩
        injection heq with e1 e2
        injection e1 with e1'
        injection e2 with e2'
        show (if toYYYYMM dc = comp then
          (if toYYYYMM dcom = pay then true else false) else false) = true
        rw [if_pos (e1' ▸ h1), if_pos (e2' ▸ h2)]
    | some dc, Option.none =>
      constructor
      · intro h
        have h' : (false : Bool) = true := h
        exact absurd h' (by simp)
      · rintro ⟨-, dc', dcom', heq, -, -⟩
        injection heq with _ e2
        exact Option.noConfusion e2
    | Option.none, odcom =>
      constructor
      · intro h
        have h' : (false : Bool) = true := h
        exact absurd h' (by simp)
      · rintro ⟨-, dc', dcom', heq, -, -⟩
        injection heq with e1 _
        exact Option.noConfusion e1

/-- C2 counterexample: the salesperson filter passes `nome` to
`Series.str.contains`, which treats it as a regular expression.  With the
name `"A.a"`, the row of vendedor `"Ana"` is included in the report even
though `"A.a"` is not a case-insensitive substring of `"Ana"`. -/
theorem c2_counterexample :
    (run_for_person
        ⟨["Niveis", "Sales Executive"], [[("Niveis", "Guardiao"), ("Sales Executive", "50%")]]⟩
        ⟨["Código", "Vendedor", "Profit Liquido"],
         [[("Código", "X1"), ("Vendedor", "Ana"), ("Profit Liquido", "100")]]⟩
        (fun s => if s = "X1" then (some ⟨2025, 8, 15⟩, some ⟨2025, 12, 1⟩)
          else (Option.none, Option.none))
        "A.a" "Guardiao" ["2025-08"] "2025-12" "").map
      (fun o => o.1.map (fun x => (x.1, x.2.1))) =
      .ok [("2025-08", [[("Código", "X1"), ("Vendedor", "Ana"), ("Profit Liquido", "100")]])] ∧
    substrCI "A.a" "Ana" = false :=
  ⟨by decide, by decide⟩

/-- C2 (amended): provided the salesperson name contains no regular-
expression metacharacters, a row contributes to the report exactly when the
claim's five conditions hold: case-insensitive substring match on
`Vendedor`, non-blank trimmed `Código`, both external dates resolved, and
both month buckets equal to the requested periods.  (In general the name is
interpreted as a case-insensitive regular expression — see the
counterexample.) -/
theorem c2_transaction_filter
    (niveis ap : DF) (lookup : LookupT) (nome nivel : String)
    (competencias : List String) (pay : String)
    (out : List (String × List Row × ℚ × ℚ) × ℚ × ℚ)
    (hm : ∀ c ∈ nome.data, c ∉ regexMetaChars)
    (hrun : run_for_person niveis ap lookup nome nivel competencias pay "" = .ok out) :
    out.1.map (fun x => (x.1, x.2.1)) =
      competencias.map (fun comp => (comp, includedRows ap lookup nome comp pay)) ∧
    ∀ comp r, r ∈ includedRows ap lookup nome comp pay ↔
      (r ∈ ap.rows ∧ substrCI nome (rget r "Vendedor") = true ∧
       pyStrip (rget r "Código") ≠ "" ∧
       ∃ dc dcom, lookup (pyStrip (rget r "Código")) = (some dc, some dcom) ∧
         toYYYYMM dc = comp ∧ toYYYYMM dcom = pay) := by
  constructor
  · rw [run_for_person] at hrun
    by_cases hgp : "Profit Liquido" ∉ ap.cols
    · rw [if_pos hgp] at hrun
      exact Except.noConfusion hrun
    · rw [if_neg hgp] at hrun
      cases hp : get_percentual_sales_exec niveis nivel with
      | error e =>
        rw [hp] at hrun
        exact Except.noConfusion hrun
      | ok pct =>
        rw [hp] at hrun
        rw [filter_apurado_by_vendedor] at hrun
        by_cases hc1 : "Código" ∉ ap.cols
        · rw [if_pos hc1] at hrun
          exact Except.noConfusion hrun
        · rw [if_neg hc1] at hrun
          by_cases hc2 : "Vendedor" ∉ ap.cols
          · rw [if_pos hc2] at hrun
            exact Except.noConfusion hrun
          · rw [if_neg hc2] at hrun
            have hout : out = (competencias.map (fun comp =>
                (comp, procRows lookup "" pct comp pay (vendRows ap nome))),
                ((competencias.map (fun comp =>
                  (comp, procRows lookup "" pct comp pay (vendRows ap nome)))).map
                  (fun x => x.2.2.1)).sum,
                ((competencias.map (fun comp =>
                  (comp, procRows lookup "" pct comp pay (vendRows ap nome)))).map
                  (fun x => x.2.2.2)).sum) := by
              have := hrun
              injection this with h1
              exact h1.symm
            rw [hout]
            show (competencias.map _).map _ = _
            rw [List.map_map]
            apply List.map_congr_left
            intro comp _
            show (comp, (procRows lookup "" pct comp pay (vendRows ap nome)).1) = _
            rw [procRows_nodebug]
            rfl
  · intro comp r
    rw [includedRows, List.mem_filter, vendRows, List.mem_filter,
      pyContainsCI_eq_substrCI nome _ hm, rowPasses_iff]
    tauto

/-- The concrete tables for the C2/C3 scenario runs. -/
def scenNiv : DF :=
  ⟨["Niveis", "Sales Executive"], [[("Niveis", "Guardiao"), ("Sales Executive", "50%")]]⟩

/-- The apurado table of the scenario: one transaction of gross 1000.00. -/
def scenAp : DF :=
  ⟨["Código", "Vendedor", "Profit Liquido"],
   [[("Código", "SHP1"), ("Vendedor", "Ana Silva"), ("Profit Liquido", "1000.00")]]⟩

/-- The scenario's transaction row. -/
def scenRow : Row :=
  [("Código", "SHP1"), ("Vendedor", "Ana Silva"), ("Profit Liquido", "1000.00")]

/-- The scenario's date lookup: `SHP1` was created 2025-08-15 and has
commission date 2025-12-01. -/
def scenLookup : LookupT :=
  fun s => if s = "SHP1" then (some ⟨2025, 8, 15⟩, some ⟨2025, 12, 1⟩)
    else (Option.none, Option.none)

/-- The output of the scenario run of `run_for_person` (packaged so that
hypotheses of the form `run_for_person … = .ok _` can be discharged by
`rfl`). -/
def scenOut : List (String × List Row × ℚ × ℚ) × ℚ × ℚ :=
  (run_for_person scenNiv scenAp scenLookup "Ana" "Guardiao"
    ["2025-08", "2025-09", "2025-10"] "2025-12" "").toOption.getD ([], 0, 0)

/-- Witness for C2: the row-contribution equivalence at the scenario tables
for the plain name `"Ana"` and the period pair `("2025-08", "2025-12")`. -/
theorem c2_transaction_filter_witness :
    (∀ c ∈ "Ana".data, c ∉ regexMetaChars) ∧
    (scenRow ∈ includedRows scenAp scenLookup "Ana" "2025-08" "2025-12" ↔
      (scenRow ∈ scenAp.rows ∧ substrCI "Ana" (rget scenRow "Vendedor") = true ∧
       pyStrip (rget scenRow "Código") ≠ "" ∧
       ∃ dc dcom, scenLookup (pyStrip (rget scenRow "Código")) = (some dc, some dcom) ∧
         toYYYYMM dc = "2025-08" ∧ toYYYYMM dcom = "2025-12")) :=
  ⟨by decide,
   (c2_transaction_filter scenNiv scenAp scenLookup "Ana" "Guardiao"
     ["2025-08", "2025-09", "2025-10"] "2025-12" scenOut (by decide) rfl).2
     "2025-08" scenRow⟩

/-- C3: for a successful debug-free run, each per-competência block carries
exactly the included rows, their gross sum, and the sum of the per-row
commissions `round(gp × pct, 2)`; the run's overall totals are the sums of
the per-competência sums.  The second conjunct is the end-to-end scenario:
one person at level `Guardiao` (50%) with a single matching transaction of
gross 1000.00 (created 2025-08, commission date 2025-12) yields gross total
1000.00 and commission total 500.00. -/
theorem c3_commission_totals :
    (∀ (niveis ap : DF) (lookup : LookupT) (nome nivel : String)
       (competencias : List String) (pay : String)
       (out : List (String × List Row × ℚ × ℚ) × ℚ × ℚ) (pct : ℚ),
      run_for_person niveis ap lookup nome nivel competencias pay "" = .ok out →
      get_percentual_sales_exec niveis nivel = .ok pct →
      out.1 = competencias.map (fun comp =>
        (comp, includedRows ap lookup nome comp pay,
         ((includedRows ap lookup nome comp pay).map gpOf).sum,
         ((includedRows ap lookup nome comp pay).map (fun r => round2 (gpOf r * pct))).sum)) ∧
      out.2.1 = (competencias.map (fun comp =>
        ((includedRows ap lookup nome comp pay).map gpOf).sum)).sum ∧
      out.2.2 = (competencias.map (fun comp =>
        ((includedRows ap lookup nome comp pay).map
          (fun r => round2 (gpOf r * pct))).sum)).sum) ∧
    (run_for_person scenNiv scenAp scenLookup "Ana" "Guardiao"
        ["2025-08", "2025-09", "2025-10"] "2025-12" "").toOption.map (fun o => o.2) =
      some ((1000 : ℚ), (500 : ℚ)) := by
  have general : ∀ (niveis ap : DF) (lookup : LookupT) (nome nivel : String)
       (competencias : List String) (pay : String)
       (out : List (String × List Row × ℚ × ℚ) × ℚ × ℚ) (pct : ℚ),
      run_for_person niveis ap lookup nome nivel competencias pay "" = .ok out →
      get_percentual_sales_exec niveis nivel = .ok pct →
      out.1 = competencias.map (fun comp =>
        (comp, includedRows ap lookup nome comp pay,
         ((includedRows ap lookup nome comp pay).map gpOf).sum,
         ((includedRows ap lookup nome comp pay).map (fun r => round2 (gpOf r * pct))).sum)) ∧
      out.2.1 = (competencias.map (fun comp =>
        ((includedRows ap lookup nome comp pay).map gpOf).sum)).sum ∧
      out.2.2 = (competencias.map (fun comp =>
        ((includedRows ap lookup nome comp pay).map
          (fun r => round2 (gpOf r * pct))).sum)).sum := by
    intro niveis ap lookup nome nivel competencias pay out pct hrun hpct
    rw [run_for_person] at hrun
    by_cases hgp : "Profit Liquido" ∉ ap.cols
    · rw [if_pos hgp] at hrun
      exact Except.noConfusion hrun
    · rw [if_neg hgp, hpct, filter_apurado_by_vendedor] at hrun
      by_cases hc1 : "Código" ∉ ap.cols
      · rw [if_pos hc1] at hrun
        exact Except.noConfusion hrun
      · rw [if_neg hc1] at hrun
        by_cases hc2 : "Vendedor" ∉ ap.cols
        · rw [if_pos hc2] at hrun
          exact Except.noConfusion hrun
        · rw [if_neg hc2] at hrun
          have hout : out = (competencias.map (fun comp =>
              (comp, procRows lookup "" pct comp pay (vendRows ap nome))),
              ((competencias.map (fun comp =>
                (comp, procRows lookup "" pct comp pay (vendRows ap nome)))).map
                (fun x => x.2.2.1)).sum,
              ((competencias.map (fun comp =>
                (comp, procRows lookup "" pct comp pay (vendRows ap nome)))).map
                (fun x => x.2.2.2)).sum) := by
            have := hrun
            injection this with h1
            exact h1.symm
          have hmap : competencias.map (fun comp =>
              (comp, procRows lookup "" pct comp pay (vendRows ap nome))) =
            competencias.map (fun comp =>
              (comp, includedRows ap lookup nome comp pay,
               ((includedRows ap lookup nome comp pay).map gpOf).sum,
               ((includedRows ap lookup nome comp pay).map
                 (fun r => round2 (gpOf r * pct))).sum)) := by
            apply List.map_congr_left
            intro comp _
            rw [procRows_nodebug]
            rfl
          refine ⟨?_, ?_, ?_⟩
          · rw [hout]
            exact hmap
          · rw [hout]
            show ((competencias.map (fun comp =>
                (comp, procRows lookup "" pct comp pay (vendRows ap nome)))).map
                (fun x => x.2.2.1)).sum = _
            rw [hmap, List.map_map]
            rfl
          · rw [hout]
            show ((competencias.map (fun comp =>
                (comp, procRows lookup "" pct comp pay (vendRows ap nome)))).map
                (fun x => x.2.2.2)).sum = _
            rw [hmap, List.map_map]
            rfl
  refine ⟨general, ?_⟩
  have hpct : get_percentual_sales_exec scenNiv "Guardiao" =
      .ok (repVal ⟨false, 50, 0, 0, 0⟩ / 100) := rfl
  have hrun : run_for_person scenNiv scenAp scenLookup "Ana" "Guardiao"
      ["2025-08", "2025-09", "2025-10"] "2025-12" "" = .ok scenOut := rfl
  obtain ⟨-, hg, hc⟩ := general scenNiv scenAp scenLookup "Ana" "Guardiao"
    ["2025-08", "2025-09", "2025-10"] "2025-12" scenOut
    (repVal ⟨false, 50, 0, 0, 0⟩ / 100) hrun hpct
  have e1 : includedRows scenAp scenLookup "Ana" "2025-08" "2025-12" = [scenRow] := by decide
  have e2 : includedRows scenAp scenLookup "Ana" "2025-09" "2025-12" = [] := by decide
  have e3 : includedRows scenAp scenLookup "Ana" "2025-10" "2025-12" = [] := by decide
  have hgp : gpOf scenRow = repVal ⟨false, 1000, 0, 2, 0⟩ := rfl
  rw [hrun]
  show some (scenOut.2) = some ((1000 : ℚ), (500 : ℚ))
  have hg' : scenOut.2.1 = (1000 : ℚ) := by
    rw [hg]
    simp only [List.map_cons, List.map_nil, e1, e2, e3, List.sum_cons, List.sum_nil, hgp]
    norm_num [repVal]
  have hc' : scenOut.2.2 = (500 : ℚ) := by
    rw [hc]
    simp only [List.map_cons, List.map_nil, e1, e2, e3, List.sum_cons, List.sum_nil, hgp]
    norm_num [repVal, round2, rhe]
  rw [show scenOut.2 = (scenOut.2.1, scenOut.2.2) from rfl, hg', hc']

/-- Witness for C3: the per-competência structure of the scenario run,
obtained from the general statement. -/
theorem c3_commission_totals_witness :
    run_for_person scenNiv scenAp scenLookup "Ana" "Guardiao"
      ["2025-08", "2025-09", "2025-10"] "2025-12" "" = .ok scenOut ∧
    scenOut.2.1 = (["2025-08", "2025-09", "2025-10"].map (fun comp =>
      ((includedRows scenAp scenLookup "Ana" comp "2025-12").map gpOf).sum)).sum :=
  ⟨rfl,
   (c3_commission_totals.1 scenNiv scenAp scenLookup "Ana" "Guardiao"
     ["2025-08", "2025-09", "2025-10"] "2025-12" scenOut
     (repVal ⟨false, 50, 0, 0, 0⟩ / 100) rfl rfl).2.1⟩

lemma safeHeadersGo_length : ∀ (hs : List String) (i : ℕ) (used : List (String × ℕ)),
    (safeHeadersGo i used hs).length = hs.length := by
  intro hs
  induction hs with
  | nil => intro i used; rfl
  | cons h rest ih =>
    intro i used
    rw [safeHeadersGo, List.length_cons, List.length_cons, ih]

lemma padTrunc_length (n : ℕ) (row : List String) : (padTrunc n row).length = n := by
  rw [padTrunc, List.length_take, List.length_append, List.length_replicate]
  omega

lemma allBlank_padTrunc (n : ℕ) (row : List String) (h : allBlankB row = true) :
    allBlankB (padTrunc n row) = true := by
  rw [allBlankB, List.all_eq_true] at h ⊢
  intro x hx
  have hx' : x ∈ row ++ List.replicate n "" := List.mem_of_mem_take hx
  rcases List.mem_append.mp hx' with h1 | h2
  · exact h x h1
  · rw [List.eq_of_mem_replicate h2]
    decide

/-- C8 counterexample: the header list `["A", "A__2", "A"]` is
disambiguated to `["A", "A__2", "A__2"]` — the generated suffix of the
repeated `"A"` collides with the literal header `"A__2"`, so the resulting
column names are NOT pairwise distinct. -/
theorem c8_counterexample :
    safe_headers ["A", "A__2", "A"] = ["A", "A__2", "A__2"] ∧
    ¬ (safe_headers ["A", "A__2", "A"]).Nodup :=
  ⟨by decide, by decide⟩

/-- C8 (amended): header names are derived deterministically (blank headers
get the positional placeholder, repeats get a numeric suffix) and are
pairwise distinct PROVIDED no trimmed header contains two consecutive
underscores (the counterexample shows the restriction is needed); fully
blank data rows are skipped, and the surviving rows are padded or truncated
to the header width. -/
theorem c8_sheet_reader (hd : List String) (body : List (List String))
    (hnd : ∀ h ∈ hd, noDunderB (pyStrip h).data = true) :
    (safe_headers hd).Nodup ∧
    (safe_headers hd).length = hd.length ∧
    get_records_tolerant (hd :: body) =
      (body.filter (fun row => !allBlankB (padTrunc (safe_headers hd).length row))).map
        (fun row => (safe_headers hd).zip (padTrunc (safe_headers hd).length row)) ∧
    (∀ row, allBlankB row = true → allBlankB (padTrunc (safe_headers hd).length row) = true) ∧
    (∀ rec ∈ get_records_tolerant (hd :: body), rec.length = hd.length) := by
  have hlen : (safe_headers hd).length = hd.length := safeHeadersGo_length hd 0 []
  have hrec : get_records_tolerant (hd :: body) =
      (body.filter (fun row => !allBlankB (padTrunc (safe_headers hd).length row))).map
        (fun row => (safe_headers hd).zip (padTrunc (safe_headers hd).length row)) := by
    show body.filterMap (fun row =>
      if allBlankB (padTrunc (safe_headers hd).length row) then Option.none
      else some ((safe_headers hd).zip (padTrunc (safe_headers hd).length row))) = _
    exact filterMap_if_eq_filter_map _ _ body
  refine ⟨safe_headers_nodup hd hnd, hlen, hrec, fun row h => allBlank_padTrunc _ row h,
    fun rec hrec' => ?_⟩
  rw [hrec] at hrec'
  obtain ⟨row, _, hzip⟩ := List.mem_map.mp hrec'
  rw [← hzip, List.length_zip, padTrunc_length, hlen]
  exact Nat.min_self _

/-- Witness for C8 on a concrete sheet with a blank header and blank rows. -/
theorem c8_sheet_reader_witness :
    (∀ h ∈ ["Nome", ""], noDunderB (pyStrip h).data = true) ∧
    (safe_headers ["Nome", ""]).Nodup ∧
    get_records_tolerant [["Nome", ""], ["a", "b", "c"], ["  ", ""], ["x"]] =
      (([["a", "b", "c"], ["  ", ""], ["x"]].filter
        (fun row => !allBlankB (padTrunc (safe_headers ["Nome", ""]).length row))).map
        (fun row => (safe_headers ["Nome", ""]).zip
          (padTrunc (safe_headers ["Nome", ""]).length row))) := by
  have h := c8_sheet_reader ["Nome", ""] [["a", "b", "c"], ["  ", ""], ["x"]] (by decide)
  exact ⟨by decide, h.1, h.2.2.1⟩

/-- C9: the whole aggregation is stable under re-running.  If a run over
the three tables succeeds with some grand totals, then a second run on the
tables AS THE FIRST RUN LEFT THEM (including the debug precheck's in-place
`_codigo_norm` column assignment on the shared apurado table) returns the
very same tables and totals: no function of the pipeline mutates the shared
input dataframes in a way that changes a later run. -/
theorem c9_idempotent_aggregation
    (niveis meta ap : DF) (lookup : LookupT) (competencias : List String)
    (pay debug : String) (tabs : DF × DF × DF) (g c : ℚ)
    (h : mainAgg niveis meta ap lookup competencias pay debug = .ok (tabs, g, c)) :
    mainAgg tabs.1 tabs.2.1 tabs.2.2 lookup competencias pay debug = .ok (tabs, g, c) := by
  rw [mainAgg] at h
  cases hg : get_sales_exec_people meta with
  | error e =>
    rw [hg] at h
    exact Except.noConfusion h
  | ok people =>
    rw [hg] at h
    have h' : (if people.isEmpty = true then
          (Except.error Err.noPeople : Except Err ((DF × DF × DF) × ℚ × ℚ))
        else match peopleFold niveis (debug_precheck_in_apurados ap debug) lookup
            competencias pay debug people with
          | .error e => .error e
          | .ok t => .ok ((niveis, meta, debug_precheck_in_apurados ap debug), t.1, t.2)) =
        .ok (tabs, g, c) := h
    by_cases hemp : people.isEmpty = true
    · rw [if_pos hemp] at h'
      exact Except.noConfusion h'
    · rw [if_neg hemp] at h'
      cases hf : peopleFold niveis (debug_precheck_in_apurados ap debug) lookup
          competencias pay debug people with
      | error e =>
        rw [hf] at h'
        exact Except.noConfusion h'
      | ok t =>
        rw [hf] at h'
        injection h' with h1
        injection h1 with htabs hrest
        injection hrest with hgq hcq
        subst htabs hgq hcq
        show mainAgg niveis meta (debug_precheck_in_apurados ap debug)
            lookup competencias pay debug =
          .ok ((niveis, meta, debug_precheck_in_apurados ap debug), t.1, t.2)
        rw [mainAgg, precheck_idem, hg]
        show (if people.isEmpty = true then
            (Except.error Err.noPeople : Except Err ((DF × DF × DF) × ℚ × ℚ))
          else match peopleFold niveis (debug_precheck_in_apurados ap debug) lookup
              competencias pay debug people with
            | .error e => .error e
            | .ok t => .ok ((niveis, meta, debug_precheck_in_apurados ap debug), t.1, t.2)) = _
        rw [if_neg hemp, hf]

/-- The tables of the C9 witness run (debug code set, so the precheck's
mutation actually fires). -/
def c9Out : (DF × DF × DF) × ℚ × ℚ :=
  (mainAgg scenNiv
    ⟨["Colaborador", "Email", "Função", "Nível"],
     [[("Colaborador", "Ana"), ("Email", "a@x.com"), ("Função", "Sales Executive"),
       ("Nível", "Guardiao")]]⟩
    scenAp scenLookup ["2025-08"] "2025-12" "SHP1").toOption.getD
    ((⟨[], []⟩, ⟨[], []⟩, ⟨[], []⟩), 0, 0)

/-- Witness for C9: a concrete run with `DEBUG_CODE = "SHP1"` (so the
apurado table is actually mutated) re-run on its own output tables. -/
theorem c9_idempotent_aggregation_witness :
    mainAgg scenNiv
      ⟨["Colaborador", "Email", "Função", "Nível"],
       [[("Colaborador", "Ana"), ("Email", "a@x.com"), ("Função", "Sales Executive"),
         ("Nível", "Guardiao")]]⟩
      scenAp scenLookup ["2025-08"] "2025-12" "SHP1" =
      .ok (c9Out.1, c9Out.2.1, c9Out.2.2) ∧
    mainAgg c9Out.1.1 c9Out.1.2.1 c9Out.1.2.2 scenLookup ["2025-08"] "2025-12" "SHP1" =
      .ok (c9Out.1, c9Out.2.1, c9Out.2.2) :=
  ⟨rfl,
   c9_idempotent_aggregation scenNiv
     ⟨["Colaborador", "Email", "Função", "Nível"],
      [[("Colaborador", "Ana"), ("Email", "a@x.com"), ("Função", "Sales Executive"),
        ("Nível", "Guardiao")]]⟩
     scenAp scenLookup ["2025-08"] "2025-12" "SHP1" c9Out.1 c9Out.2.1 c9Out.2.2 rfl⟩
